import Mathlib

/-!
Verification of the timestamp-fusion core of `photo-tools`
(`src/common/file_datetime.py`, `src/common/datetime_utils.py`).

The Python code is shallowly embedded: `datetime` objects become the
`DT` structure (civil fields plus an optional UTC offset in seconds,
`none` modelling a naive datetime), machine floats holding epoch values
become exact integers counting microseconds, and Python `raise` becomes
`Except`.  The process-local timezone (`datetime.now().astimezone()`)
is threaded as an explicit offset parameter.
-/

namespace Photo

/-- The digits (most significant first) of `n` written in exactly `w`
base-10 positions, as produced by zero-padded `strftime`/format fields. -/
def padDigits : Nat → Nat → List Nat
  | 0, _ => []
  | w + 1, n => (n / 10 ^ w) % 10 :: padDigits w n

/-- Shallow model of a Python `datetime`: civil fields plus the UTC
offset of its `tzinfo` in seconds (`none` for a naive datetime). -/
structure DT where
  year : Nat
  month : Nat
  day : Nat
  hour : Nat
  minute : Nat
  second : Nat
  micro : Nat
  off : Option Int
deriving DecidableEq

/-- `calendar.isleap`, as used by `datetime`'s calendar arithmetic. -/
def isleap (y : Nat) : Bool := y % 4 == 0 && (y % 100 != 0 || y % 400 == 0)

/-- `_days_in_month` of CPython's `datetime` module. -/
def days_in_month (y m : Nat) : Nat :=
  if m = 2 then (if isleap y then 29 else 28)
  else if m = 4 ∨ m = 6 ∨ m = 9 ∨ m = 11 then 30
  else 31

/-- `_days_before_month` of CPython's `datetime` module. -/
def days_before_month (y m : Nat) : Nat :=
  (match m with
   | 1 => 0 | 2 => 31 | 3 => 59 | 4 => 90 | 5 => 120 | 6 => 151
   | 7 => 181 | 8 => 212 | 9 => 243 | 10 => 273 | 11 => 304 | _ => 334)
  + (if 2 < m ∧ isleap y then 1 else 0)

/-- `_days_before_year` of CPython's `datetime` module. -/
def days_before_year (year : Nat) : Nat :=
  let y := year - 1
  y * 365 + y / 4 - y / 100 + y / 400

/-- `datetime.toordinal()`: proleptic-Gregorian day number, 0001-01-01 = 1. -/
def toordinal (dt : DT) : Nat :=
  days_before_year dt.year + days_before_month dt.year dt.month + dt.day

/-- `date(1970, 1, 1).toordinal()`. -/
def epochOrdinal : Nat := 719163

/-- `datetime.timestamp()` of an aware datetime, in exact microseconds.
A naive datetime never reaches this in the embedded code (every stored
candidate is timezone-aware), so `none` is read as offset 0. -/
def epochMicro (dt : DT) : Int :=
  ((toordinal dt : Int) - (epochOrdinal : Int)) * 86400000000
  + ((dt.hour * 3600 + dt.minute * 60 + dt.second : Nat) : Int) * 1000000
  + (dt.micro : Int)
  - dt.off.getD 0 * 1000000

/-- The invariant CPython enforces on every constructed `datetime`. -/
def DT.Valid (dt : DT) : Prop :=
  1 ≤ dt.year ∧ dt.year ≤ 9999 ∧ 1 ≤ dt.month ∧ dt.month ≤ 12 ∧
  1 ≤ dt.day ∧ dt.day ≤ days_in_month dt.year dt.month ∧
  dt.hour ≤ 23 ∧ dt.minute ≤ 59 ∧ dt.second ≤ 59 ∧ dt.micro ≤ 999999

instance (dt : DT) : Decidable dt.Valid := by unfold DT.Valid; infer_instance

/-- `TimeCandidate` of `src/common/file_datetime.py`. -/
structure TimeCandidate where
  source : String
  timestamp : DT
  note : String
  origin_source : Option String := none
deriving DecidableEq

/-- `pat` occurs as a contiguous sublist of `s`. -/
def listInfix (pat : List Char) : List Char → Bool
  | [] => pat.isEmpty
  | c :: rest => pat.isPrefixOf (c :: rest) || listInfix pat rest

/-- Python substring test `pat in s`. -/
def strContains (s pat : String) : Bool := listInfix pat.data s.data

/-- Python `s.startswith(pat)`. -/
def strStarts (s pat : String) : Bool := pat.data.isPrefixOf s.data

/-- Python `s.endswith(pat)`. -/
def strEnds (s pat : String) : Bool := pat.data.isSuffixOf s.data

/-- Python `a < b` on strings: lexicographic by code point. -/
def charsLt : List Char → List Char → Bool
  | [], [] => false
  | [], _ :: _ => true
  | _ :: _, [] => false
  | a :: as, b :: bs =>
    if a.toNat < b.toNat then true
    else if b.toNat < a.toNat then false
    else charsLt as bs

/-- Python `a < b` on strings. -/
def strLt (a b : String) : Bool := charsLt a.data b.data

/-- `infer_path_precision`. -/
def infer_path_precision (source : String) : Option String :=
  if !strStarts source "path:" then none
  else if strContains source "YYYYMMDD_HHMMSS"
       || strContains source "YYYY-MM-DD HH:MM:SS" then some "datetime"
  else if strContains source ".YYYYMMDD."
       || strContains source ".YYYY-MM-DD."
       || strEnds source ":YYYYMMDD" then some "date"
  else if strContains source ".YYYYMM."
       || strContains source ".YYYY-MM."
       || strEnds source ":YYYYMM" then some "month"
  else if strContains source ".YYYY."
       || strEnds source ":YYYY" then some "year"
  else none

/-- `_candidate_from`. -/
def candidate_from (c : TimeCandidate) : String := c.origin_source.getD c.source

/-- `_precision_digits`. -/
def precision_digits (c : TimeCandidate) : Nat :=
  let precision := infer_path_precision (candidate_from c)
  if precision = some "year" then 4
  else if precision = some "month" then 6
  else if precision = some "date" then 8
  else if precision = some "datetime" then 17
  else 17

/-- `_timestamp_token`: `strftime("%Y%m%d%H%M%S")` plus the 3-digit
millisecond field, as a digit list. -/
def timestamp_token (dt : DT) : List Nat :=
  padDigits 4 dt.year ++ padDigits 2 dt.month ++ padDigits 2 dt.day ++
  padDigits 2 dt.hour ++ padDigits 2 dt.minute ++ padDigits 2 dt.second ++
  padDigits 3 (dt.micro / 1000)

/-- `_precision_token`. -/
def precision_token (c : TimeCandidate) : List Nat :=
  (timestamp_token c.timestamp).take (precision_digits c)

/-- `_has_prefix_relation`. -/
def has_prefix_relation (a b : TimeCandidate) : Bool :=
  let ta := precision_token a
  let tb := precision_token b
  if ta.length = tb.length then ta == tb
  else if ta.length < tb.length then ta.isPrefixOf tb
  else tb.isPrefixOf ta

/-- `_compare_candidate`. -/
def compare_candidate (a b : TimeCandidate) : Int :=
  let da := precision_digits a
  let db := precision_digits b
  if has_prefix_relation a b = true ∧ da ≠ db then
    (if da > db then -1 else 1)
  else
    let ta := epochMicro a.timestamp
    let tb := epochMicro b.timestamp
    if ta < tb then -1
    else if tb < ta then 1
    else if da ≠ db then (if da > db then -1 else 1)
    else
      let sa := candidate_from a
      let sb := candidate_from b
      if strLt sa sb then -1
      else if strLt sb sa then 1
      else 0

/-- `sorted(candidates, key=cmp_to_key(_compare_candidate))`: Python's
sort is stable, and a stable sort under the comparator's non-strict
relation is modelled by insertion sort. -/
def sort_candidates (candidates : List TimeCandidate) : List TimeCandidate :=
  List.insertionSort (fun a b => compare_candidate a b ≤ 0) candidates

theorem sort_candidates_perm (l : List TimeCandidate) : (sort_candidates l).Perm l :=
  List.perm_insertionSort _ l

theorem sort_candidates_ne_nil (a : TimeCandidate) (l : List TimeCandidate) :
    sort_candidates (a :: l) ≠ [] := by
  intro h
  have := (sort_candidates_perm (a :: l)).length_eq
  rw [h] at this
  simp at this

/-- `choose_most_likely`: raises on an empty list, else the first
element of the ranked ordering. -/
def choose_most_likely (candidates : List TimeCandidate) : Except String TimeCandidate :=
  match candidates with
  | [] => Except.error ("No datetime candidates available")
  | a :: l => Except.ok ((sort_candidates (a :: l)).head (sort_candidates_ne_nil a l))

theorem choose_most_likely_mem {l : List TimeCandidate} {c : TimeCandidate}
    (h : choose_most_likely l = Except.ok c) : c ∈ l := by
  match l with
  | [] => simp [choose_most_likely] at h
  | a :: t =>
    simp only [choose_most_likely, Except.ok.injEq] at h
    have hmem : c ∈ sort_candidates (a :: t) := by
      rw [← h]; exact List.head_mem _
    exact (sort_candidates_perm (a :: t)).subset hmem

/-- Claim C5: `choose_most_likely` on an empty list signals the fatal
error (never a sentinel), this is the only error it can produce, and on
every non-empty list it returns an element of that list. -/
theorem choose_most_likely_spec :
    (∀ l : List TimeCandidate, (∃ e, choose_most_likely l = Except.error e) ↔ l = [])
    ∧ (∀ (l : List TimeCandidate) (c : TimeCandidate),
        choose_most_likely l = Except.ok c → c ∈ l) := by
  constructor
  · intro l
    constructor
    · intro ⟨e, he⟩
      match l with
      | [] => rfl
      | a :: t => simp [choose_most_likely] at he
    · rintro rfl
      exact ⟨"No datetime candidates available", rfl⟩
  · intro l c h
    exact choose_most_likely_mem h

/-- A sample candidate used by closed witnesses. -/
def witCand (src : String) (orig : Option String) (dt : DT) : TimeCandidate :=
  { source := src, timestamp := dt, note := "", origin_source := orig }

/-- A sample timestamp 2021-03-04 05:06:07 at UTC offset 0. -/
def witDT : DT := ⟨2021, 3, 4, 5, 6, 7, 0, some 0⟩

/-- Witness for C5: instantiating the theorem at concrete lists. -/
theorem choose_most_likely_spec_witness :
    witCand "fs:mtime" none witDT ∈ [witCand "fs:mtime" none witDT] :=
  choose_most_likely_spec.2 [witCand "fs:mtime" none witDT]
    (witCand "fs:mtime" none witDT) rfl

theorem has_prefix_relation_symm (a b : TimeCandidate) :
    has_prefix_relation b a = has_prefix_relation a b := by
  simp only [has_prefix_relation]
  rcases Nat.lt_trichotomy (precision_token a).length (precision_token b).length with h | h | h
  · rw [if_neg h.ne', if_neg h.ne, if_neg (Nat.lt_asymm h), if_pos h]
  · rw [if_pos h.symm, if_pos h]
    by_cases he : precision_token b = precision_token a
    · rw [he]
    · rw [beq_eq_false_iff_ne.mpr he, beq_eq_false_iff_ne.mpr (Ne.symm he)]
  · rw [if_neg h.ne', if_neg h.ne, if_pos h, if_neg (Nat.lt_asymm h)]

/-- Claim C2: whenever the truncated tokens are prefix-compatible and
the precision digit counts differ, the higher-precision candidate ranks
strictly better in both argument orders, regardless of raw instants. -/
theorem compare_higher_precision_wins (a b : TimeCandidate)
    (hp : has_prefix_relation a b = true)
    (hd : precision_digits a ≠ precision_digits b) :
    (precision_digits a > precision_digits b →
      compare_candidate a b = -1 ∧ compare_candidate b a = 1)
    ∧ (precision_digits b > precision_digits a →
      compare_candidate a b = 1 ∧ compare_candidate b a = -1) := by
  have hp' : has_prefix_relation b a = true := by
    rw [has_prefix_relation_symm]; exact hp
  constructor
  · intro hgt
    constructor
    · simp only [compare_candidate]
      rw [if_pos ⟨hp, hd⟩, if_pos hgt]
    · simp only [compare_candidate]
      rw [if_pos ⟨hp', Ne.symm hd⟩, if_neg (by omega)]
  · intro hgt
    constructor
    · simp only [compare_candidate]
      rw [if_pos ⟨hp, hd⟩, if_neg (by omega)]
    · simp only [compare_candidate]
      rw [if_pos ⟨hp', Ne.symm hd⟩, if_pos hgt]

/-- Witness for C2: a year-precision path candidate against a
full-precision candidate inside that year. -/
theorem compare_higher_precision_wins_witness :
    compare_candidate (witCand "fs:mtime" none witDT)
        (witCand "fs:path" (some "path:parent:YYYY") ⟨2021, 1, 1, 0, 0, 0, 0, some 0⟩) = -1
    ∧ compare_candidate (witCand "fs:path" (some "path:parent:YYYY") ⟨2021, 1, 1, 0, 0, 0, 0, some 0⟩)
        (witCand "fs:mtime" none witDT) = 1 :=
  (compare_higher_precision_wins _ _ (by decide) (by decide)).1 (by decide)

/-! ### Calendar arithmetic: ordinal monotonicity and the epoch coupling -/

theorem isleap_iff (y : Nat) :
    isleap y = true ↔ (y % 4 = 0 ∧ (y % 100 ≠ 0 ∨ y % 400 = 0)) := by
  simp [isleap, Bool.and_eq_true, Bool.or_eq_true]

theorem days_before_year_succ (y : Nat) (hy : 1 ≤ y) :
    days_before_year (y + 1)
      = days_before_year y + 365 + (if isleap y = true then 1 else 0) := by
  obtain ⟨z, rfl⟩ : ∃ z, y = z + 1 := ⟨y - 1, by omega⟩
  simp only [days_before_year, Nat.add_sub_cancel]
  rw [Nat.succ_div z 4, Nat.succ_div z 100, Nat.succ_div z 400]
  simp only [isleap_iff]
  split_ifs <;> omega

theorem days_before_year_le {y y' : Nat} (h1 : 1 ≤ y) (h : y ≤ y') :
    days_before_year y ≤ days_before_year y' := by
  induction y', h using Nat.le_induction with
  | base => exact le_refl _
  | succ n hn ih =>
    have := days_before_year_succ n (le_trans h1 hn)
    omega

theorem days_before_year_gap {y y' : Nat} (h1 : 1 ≤ y) (h : y < y') :
    days_before_year y + 365 + (if isleap y = true then 1 else 0)
      ≤ days_before_year y' := by
  have hle : days_before_year (y + 1) ≤ days_before_year y' :=
    days_before_year_le (by omega) h
  have := days_before_year_succ y h1
  omega

theorem dbm_add_dim {y m : Nat} (h1 : 1 ≤ m) (h2 : m ≤ 11) :
    days_before_month y (m + 1) = days_before_month y m + days_in_month y m := by
  interval_cases m <;>
    by_cases hl : isleap y <;>
      simp [days_before_month, days_in_month, hl]

theorem dbm_le_dbm {y m m' : Nat} (h1 : 1 ≤ m) (h : m ≤ m') (h2 : m' ≤ 12) :
    days_before_month y m ≤ days_before_month y m' := by
  induction m', h using Nat.le_induction with
  | base => exact le_refl _
  | succ n hn ih =>
    have := @dbm_add_dim y n (le_trans h1 hn) (by omega)
    have := ih (by omega)
    omega

theorem dbm_gap {y m m' : Nat} (h1 : 1 ≤ m) (h : m < m') (h2 : m' ≤ 12) :
    days_before_month y m + days_in_month y m ≤ days_before_month y m' := by
  have := @dbm_add_dim y m h1 (by omega)
  have := @dbm_le_dbm y (m + 1) m' (by omega) h h2
  omega

theorem dbm_dim_le_year {y m : Nat} (h1 : 1 ≤ m) (h2 : m ≤ 12) :
    days_before_month y m + days_in_month y m
      ≤ 365 + (if isleap y = true then 1 else 0) := by
  interval_cases m <;>
    by_cases hl : isleap y <;>
      simp [days_before_month, days_in_month, hl]

/-- Lexicographic order on the civil date triple. -/
def dateLt (a b : DT) : Prop :=
  a.year < b.year
  ∨ (a.year = b.year ∧ (a.month < b.month ∨ (a.month = b.month ∧ a.day < b.day)))

theorem toordinal_lt {a b : DT} (ha : a.Valid) (hb : b.Valid) (h : dateLt a b) :
    toordinal a < toordinal b := by
  obtain ⟨hy1, hy2, hm1, hm2, hd1, hd2, -⟩ := ha
  obtain ⟨hy1', hy2', hm1', hm2', hd1', hd2', -⟩ := hb
  unfold toordinal
  rcases h with hy | ⟨hy, hm | ⟨hm, hd⟩⟩
  · have hbound : days_before_month a.year a.month + a.day
        ≤ 365 + (if isleap a.year = true then 1 else 0) := by
      have := @dbm_dim_le_year a.year a.month hm1 hm2
      omega
    have hgap := days_before_year_gap hy1 hy
    have hdbm' : 0 ≤ days_before_month b.year b.month := Nat.zero_le _
    omega
  · rw [hy]
    have hgap := @dbm_gap b.year a.month b.month hm1 hm hm2'
    have hd2'' : a.day ≤ days_in_month b.year a.month := by rw [← hy]; exact hd2
    omega
  · rw [hy, hm]
    omega

/-- Lexicographic order on the full civil tuple, microseconds included. -/
def civLt (a b : DT) : Prop :=
  dateLt a b
  ∨ (a.year = b.year ∧ a.month = b.month ∧ a.day = b.day
     ∧ (a.hour < b.hour
        ∨ (a.hour = b.hour ∧ (a.minute < b.minute
           ∨ (a.minute = b.minute ∧ (a.second < b.second
              ∨ (a.second = b.second ∧ a.micro < b.micro)))))))

theorem toordinal_congr {a b : DT} (hy : a.year = b.year) (hm : a.month = b.month)
    (hd : a.day = b.day) : toordinal a = toordinal b := by
  unfold toordinal
  rw [hy, hm, hd]

theorem epochMicro_lt {a b : DT} (ha : a.Valid) (hb : b.Valid)
    (hoff : a.off = b.off) (h : civLt a b) :
    epochMicro a < epochMicro b := by
  have ha' := ha
  have hb' := hb
  obtain ⟨-, -, -, -, -, -, hh, hmi, hs, hu⟩ := ha'
  obtain ⟨-, -, -, -, -, -, hh', hmi', hs', hu'⟩ := hb'
  unfold epochMicro
  rw [hoff]
  rcases h with hdate | ⟨hy, hm, hd, htime⟩
  · have hord := toordinal_lt ha hb hdate
    have h1 : ((a.hour * 3600 + a.minute * 60 + a.second : Nat) : Int) ≤ 86399 := by
      omega
    have h2 : (0 : Int) ≤ ((b.hour * 3600 + b.minute * 60 + b.second : Nat) : Int) := by
      positivity
    have h3 : ((toordinal a : Nat) : Int) + 1 ≤ ((toordinal b : Nat) : Int) := by
      omega
    have h4 : ((a.micro : Nat) : Int) ≤ 999999 := by omega
    have h5 : (0 : Int) ≤ ((b.micro : Nat) : Int) := by positivity
    generalize ((toordinal a : Nat) : Int) = ta at h3 ⊢
    generalize ((toordinal b : Nat) : Int) = tb at h3 ⊢
    generalize (b.off.getD 0) = o
    nlinarith
  · have hord := toordinal_congr hy hm hd
    rw [hord]
    rcases htime with hht | ⟨hht, hmt | ⟨hmt, hst | ⟨hst, hut⟩⟩⟩ <;> omega

theorem epochMicro_congr {a b : DT} (hoff : a.off = b.off)
    (hy : a.year = b.year) (hm : a.month = b.month) (hd : a.day = b.day)
    (hh : a.hour = b.hour) (hmi : a.minute = b.minute) (hs : a.second = b.second)
    (hu : a.micro = b.micro) : epochMicro a = epochMicro b := by
  unfold epochMicro
  rw [hoff, toordinal_congr hy hm hd, hh, hmi, hs, hu]

/-! ### Three-way comparators and their order-theoretic properties -/

/-- Lexicographic digit comparison in which exhausting first means
"coarser resolution", which the comparator ranks later. -/
def cmpTok : List Nat → List Nat → Int
  | [], [] => 0
  | [], _ :: _ => 1
  | _ :: _, [] => -1
  | a :: as, b :: bs =>
    if a < b then -1 else if b < a then 1 else cmpTok as bs

def cmpInt (a b : Int) : Int := if a < b then -1 else if b < a then 1 else 0

def cmpStr (a b : String) : Int :=
  if strLt a b then -1 else if strLt b a then 1 else 0

theorem cmpTok_refl : ∀ l, cmpTok l l = 0
  | [] => rfl
  | a :: as => by simp [cmpTok, cmpTok_refl as]

theorem cmpTok_eq_zero_iff : ∀ a b, cmpTok a b = 0 ↔ a = b
  | [], [] => by simp [cmpTok]
  | [], _ :: _ => by simp [cmpTok]
  | _ :: _, [] => by simp [cmpTok]
  | a :: as, b :: bs => by
    by_cases h1 : a < b
    · have hne : a ≠ b := by omega
      simp [cmpTok, h1, hne]
    · by_cases h2 : b < a
      · have hne : a ≠ b := by omega
        simp [cmpTok, h1, h2, hne]
      · have : a = b := by omega
        subst this
        simp [cmpTok, cmpTok_eq_zero_iff as bs]

theorem cmpTok_neg : ∀ a b, cmpTok b a = -cmpTok a b
  | [], [] => rfl
  | [], _ :: _ => rfl
  | _ :: _, [] => rfl
  | a :: as, b :: bs => by
    by_cases h1 : a < b
    · simp [cmpTok, h1, Nat.lt_asymm h1]
    · by_cases h2 : b < a
      · simp [cmpTok, h1, h2]
      · simp [cmpTok, h1, h2, cmpTok_neg as bs]

theorem cmpTok_cases : ∀ a b, cmpTok a b = -1 ∨ cmpTok a b = 0 ∨ cmpTok a b = 1
  | [], [] => by simp [cmpTok]
  | [], _ :: _ => by simp [cmpTok]
  | _ :: _, [] => by simp [cmpTok]
  | a :: as, b :: bs => by
    by_cases h1 : a < b
    · simp [cmpTok, h1]
    · by_cases h2 : b < a
      · simp [cmpTok, h1, h2]
      · simpa [cmpTok, h1, h2] using cmpTok_cases as bs

theorem cmpTok_lt_trans :
    ∀ a b c, cmpTok a b = -1 → cmpTok b c = -1 → cmpTok a c = -1
  | _, [], c, _, h2 => by cases c <;> simp [cmpTok] at h2
  | [], _ :: _, _, h1, _ => by simp [cmpTok] at h1
  | _ :: _, _ :: _, [], _, _ => rfl
  | x :: as, y :: bs, z :: cs, h1, h2 => by
    simp only [cmpTok] at h1 h2 ⊢
    rcases Nat.lt_trichotomy x y with hxy | hxy | hxy
    · rcases Nat.lt_trichotomy y z with hyz | hyz | hyz
      · rw [if_pos (Nat.lt_trans hxy hyz)]
      · subst hyz
        rw [if_pos hxy]
      · rw [if_neg (by omega), if_pos hyz] at h2
        exact absurd h2 (by norm_num)
    · subst hxy
      rcases Nat.lt_trichotomy x z with hxz | hxz | hxz
      · rw [if_pos hxz]
      · subst hxz
        rw [if_neg (by omega), if_neg (by omega)] at h1 h2 ⊢
        exact cmpTok_lt_trans as bs cs h1 h2
      · rw [if_neg (by omega), if_pos hxz] at h2
        exact absurd h2 (by norm_num)
    · rw [if_neg (by omega), if_pos hxy] at h1
      exact absurd h1 (by norm_num)

theorem cmpTok_append_right : ∀ p r, r ≠ [] → cmpTok p (p ++ r) = 1
  | [], r, hr => by
    match r with
    | [] => exact absurd rfl hr
    | x :: xs => rfl
  | a :: as, r, hr => by
    simpa [cmpTok] using cmpTok_append_right as r hr

theorem charsLt_irrefl : ∀ l, charsLt l l = false
  | [] => rfl
  | a :: as => by simp [charsLt, charsLt_irrefl as]

theorem charsLt_asymm : ∀ a b, charsLt a b = true → charsLt b a = false
  | [], [], h => by simp [charsLt] at h
  | [], _ :: _, _ => rfl
  | _ :: _, [], h => by simp [charsLt] at h
  | a :: as, b :: bs, h => by
    simp only [charsLt] at h ⊢
    rcases Nat.lt_trichotomy a.toNat b.toNat with h1 | h1 | h1
    · rw [if_neg (by omega), if_pos h1]
    · rw [if_neg (by omega), if_neg (by omega)] at h ⊢
      exact charsLt_asymm as bs h
    · rw [if_neg (by omega), if_pos h1] at h
      exact absurd h (by simp)

theorem charsLt_trans :
    ∀ a b c, charsLt a b = true → charsLt b c = true → charsLt a c = true
  | a, [], _, h1, _ => by cases a <;> simp [charsLt] at h1
  | [], _ :: _, c, _, h2 => by
    cases c with
    | nil => simp [charsLt] at h2
    | cons z cs => rfl
  | x :: as, y :: bs, c, h1, h2 => by
    cases c with
    | nil => simp [charsLt] at h2
    | cons z cs =>
      simp only [charsLt] at h1 h2 ⊢
      rcases Nat.lt_trichotomy x.toNat y.toNat with hxy | hxy | hxy
      · rcases Nat.lt_trichotomy y.toNat z.toNat with hyz | hyz | hyz
        · rw [if_pos (by omega)]
        · rw [if_pos (by omega)]
        · rw [if_neg (by omega), if_pos (by omega)] at h2
          exact absurd h2 (by simp)
      · rcases Nat.lt_trichotomy y.toNat z.toNat with hyz | hyz | hyz
        · rw [if_pos (by omega)]
        · rw [if_neg (by omega), if_neg (by omega)] at h1 h2 ⊢
          exact charsLt_trans as bs cs h1 h2
        · rw [if_neg (by omega), if_pos (by omega)] at h2
          exact absurd h2 (by simp)
      · rw [if_neg (by omega), if_pos (by omega)] at h1
        exact absurd h1 (by simp)

theorem charsLt_total_eq : ∀ a b, charsLt a b = false → charsLt b a = false → a = b
  | [], [], _, _ => rfl
  | [], _ :: _, h1, _ => by simp [charsLt] at h1
  | _ :: _, [], _, h2 => by simp [charsLt] at h2
  | a :: as, b :: bs, h1, h2 => by
    simp only [charsLt] at h1 h2
    rcases Nat.lt_trichotomy a.toNat b.toNat with h | h | h
    · rw [if_pos h] at h1
      exact absurd h1 (by simp)
    · have hab : a = b := Char.ext (by
        have : a.val.toNat = b.val.toNat := h
        exact UInt32.toNat.inj this)
      rw [if_neg (by omega), if_neg (by omega)] at h1 h2
      rw [hab, charsLt_total_eq as bs h1 h2]
    · rw [if_pos h] at h2
      exact absurd h2 (by simp)

/-! ### Digit-block lemmas for the 17-digit timestamp token -/

theorem padDigits_length : ∀ w n, (padDigits w n).length = w
  | 0, _ => rfl
  | w + 1, n => by simp [padDigits, padDigits_length w n]

theorem padDigits_mod : ∀ w n, padDigits w (n % 10 ^ w) = padDigits w n
  | 0, _ => rfl
  | w + 1, n => by
    simp only [padDigits]
    have hhead : n % 10 ^ (w + 1) / 10 ^ w % 10 = n / 10 ^ w % 10 := by
      rw [pow_succ, Nat.mod_mul_right_div_self, Nat.mod_mod_of_dvd _ dvd_rfl]
    have htail : padDigits w (n % 10 ^ (w + 1)) = padDigits w n := by
      have h1 : n % 10 ^ (w + 1) % 10 ^ w = n % 10 ^ w :=
        Nat.mod_mod_of_dvd n (pow_dvd_pow 10 (by omega))
      calc padDigits w (n % 10 ^ (w + 1))
          = padDigits w (n % 10 ^ (w + 1) % 10 ^ w) := (padDigits_mod w _).symm
        _ = padDigits w (n % 10 ^ w) := by rw [h1]
        _ = padDigits w n := padDigits_mod w n
    rw [hhead, htail]

theorem lt_of_div_lt {P x y : Nat} (hP : 0 < P) (h : x / P < y / P) : x < y := by
  have e2 := Nat.div_add_mod y P
  have m1 : x % P < P := Nat.mod_lt _ hP
  calc x = P * (x / P) + x % P := (Nat.div_add_mod x P).symm
    _ < P * (x / P) + P := Nat.add_lt_add_left m1 _
    _ = P * (x / P + 1) := by ring
    _ ≤ P * (y / P) := Nat.mul_le_mul le_rfl (by omega)
    _ ≤ y := Nat.le.intro e2

theorem mod_lt_iff_of_div_eq {P x y : Nat} (hq : x / P = y / P) :
    x % P < y % P ↔ x < y := by
  have e1 := Nat.div_add_mod x P
  have e2 := Nat.div_add_mod y P
  constructor
  · intro h
    calc x = P * (x / P) + x % P := e1.symm
      _ < P * (x / P) + y % P := Nat.add_lt_add_left h _
      _ = P * (y / P) + y % P := by rw [hq]
      _ = y := e2
  · intro h
    by_contra hc
    push_neg at hc
    have hyx : y ≤ x := by
      calc y = P * (y / P) + y % P := e2.symm
        _ = P * (x / P) + y % P := by rw [hq]
        _ ≤ P * (x / P) + x % P := Nat.add_le_add_left hc _
        _ = x := e1
    omega

theorem cmpTok_pad_append :
    ∀ (w x y : Nat), x < 10 ^ w → y < 10 ^ w → ∀ (r s : List Nat),
    cmpTok (padDigits w x ++ r) (padDigits w y ++ s)
      = if x < y then -1 else if y < x then 1 else cmpTok r s
  | 0, x, y, hx, hy, r, s => by
    simp only [pow_zero, Nat.lt_one_iff] at hx hy
    subst hx; subst hy
    simp [padDigits]
  | w + 1, x, y, hx, hy, r, s => by
    have hp : 0 < 10 ^ w := pow_pos (by norm_num) w
    have hxd : x / 10 ^ w < 10 := by
      rw [Nat.div_lt_iff_lt_mul hp]
      calc x < 10 ^ (w + 1) := hx
        _ = 10 * 10 ^ w := by ring
    have hyd : y / 10 ^ w < 10 := by
      rw [Nat.div_lt_iff_lt_mul hp]
      calc y < 10 ^ (w + 1) := hy
        _ = 10 * 10 ^ w := by ring
    simp only [padDigits, Nat.mod_eq_of_lt hxd, Nat.mod_eq_of_lt hyd,
      List.cons_append, cmpTok, List.append_eq]
    rcases Nat.lt_trichotomy (x / 10 ^ w) (y / 10 ^ w) with hq | hq | hq
    · rw [if_pos hq, if_pos (lt_of_div_lt hp hq)]
    · rw [if_neg (by omega), if_neg (by omega)]
      have hrec := cmpTok_pad_append w (x % 10 ^ w) (y % 10 ^ w)
        (Nat.mod_lt _ hp) (Nat.mod_lt _ hp) r s
      rw [padDigits_mod, padDigits_mod] at hrec
      rw [hrec, if_congr (mod_lt_iff_of_div_eq hq) rfl rfl,
        if_congr (mod_lt_iff_of_div_eq hq.symm) rfl rfl]
    · have hyx : y < x := lt_of_div_lt hp hq
      rw [if_neg (by omega), if_pos hq, if_neg (by omega), if_pos hyx]

theorem cmpTok_pad (w x y : Nat) (hx : x < 10 ^ w) (hy : y < 10 ^ w) :
    cmpTok (padDigits w x) (padDigits w y)
      = if x < y then -1 else if y < x then 1 else 0 := by
  have h := cmpTok_pad_append w x y hx hy [] []
  simpa [cmpTok] using h

theorem cmpTok_append_left (p r : List Nat) (hr : r ≠ []) : cmpTok (p ++ r) p = -1 := by
  rw [cmpTok_neg p (p ++ r), cmpTok_append_right p r hr]

theorem cmpInt_eq_zero_iff (x y : Int) : cmpInt x y = 0 ↔ x = y := by
  unfold cmpInt
  split_ifs with h1 h2
  · constructor
    · intro h; exact absurd h (by norm_num)
    · intro h; omega
  · constructor
    · intro h; exact absurd h (by norm_num)
    · intro h; omega
  · constructor
    · intro _; omega
    · intro _; rfl

theorem cmpInt_neg_of_lt {x y : Int} (h : x < y) : cmpInt x y = -1 := by
  unfold cmpInt
  rw [if_pos h]

theorem cmpInt_pos_of_gt {x y : Int} (h : y < x) : cmpInt x y = 1 := by
  unfold cmpInt
  rw [if_neg (by omega), if_pos h]

theorem timestamp_token_length (dt : DT) : (timestamp_token dt).length = 17 := by
  simp [timestamp_token, padDigits_length]

theorem precision_digits_mem (c : TimeCandidate) :
    precision_digits c = 4 ∨ precision_digits c = 6 ∨ precision_digits c = 8
      ∨ precision_digits c = 17 := by
  simp only [precision_digits]
  split_ifs <;> simp

theorem precision_token_length (c : TimeCandidate) :
    (precision_token c).length = precision_digits c := by
  have h17 := timestamp_token_length c.timestamp
  have hle : precision_digits c ≤ 17 := by
    rcases precision_digits_mem c with h | h | h | h <;> omega
  simp [precision_token, h17, hle]

/-- If the full 17-digit tokens of two valid, equal-offset datetimes
differ, the token comparison agrees with the raw epoch comparison. -/
theorem cmpTok_token_eq_cmpInt {a b : DT} (ha : a.Valid) (hb : b.Valid)
    (hoff : a.off = b.off) (hne : timestamp_token a ≠ timestamp_token b) :
    cmpTok (timestamp_token a) (timestamp_token b)
      = cmpInt (epochMicro a) (epochMicro b) := by
  have ha' := ha
  have hb' := hb
  obtain ⟨hy1, hy2, hm1, hm2, hd1, hd2, hh, hmi, hs, hu⟩ := ha'
  obtain ⟨hy1', hy2', hm1', hm2', hd1', hd2', hh', hmi', hs', hu'⟩ := hb'
  have e4 : (10 : Nat) ^ 4 = 10000 := by norm_num
  have e2 : (10 : Nat) ^ 2 = 100 := by norm_num
  have e3 : (10 : Nat) ^ 3 = 1000 := by norm_num
  have hdm : a.day ≤ 31 := by
    have h := hd2; unfold days_in_month at h; split_ifs at h <;> omega
  have hdm' : b.day ≤ 31 := by
    have h := hd2'; unfold days_in_month at h; split_ifs at h <;> omega
  simp only [timestamp_token, List.append_assoc]
  rw [cmpTok_pad_append 4 a.year b.year (by omega) (by omega),
      cmpTok_pad_append 2 a.month b.month (by omega) (by omega),
      cmpTok_pad_append 2 a.day b.day (by omega) (by omega),
      cmpTok_pad_append 2 a.hour b.hour (by omega) (by omega),
      cmpTok_pad_append 2 a.minute b.minute (by omega) (by omega),
      cmpTok_pad_append 2 a.second b.second (by omega) (by omega),
      cmpTok_pad 3 (a.micro / 1000) (b.micro / 1000) (by omega) (by omega)]
  rcases Nat.lt_trichotomy (a.year) (b.year) with h1 | h1 | h1
  · rw [if_pos h1]
    exact (cmpInt_neg_of_lt (epochMicro_lt ha hb hoff (Or.inl (Or.inl h1)))).symm
  · rw [if_neg (by omega), if_neg (by omega)]
    rcases Nat.lt_trichotomy (a.month) (b.month) with h2 | h2 | h2
    · rw [if_pos h2]
      exact (cmpInt_neg_of_lt (epochMicro_lt ha hb hoff (Or.inl (Or.inr ⟨h1, Or.inl h2⟩)))).symm
    · rw [if_neg (by omega), if_neg (by omega)]
      rcases Nat.lt_trichotomy (a.day) (b.day) with h3 | h3 | h3
      · rw [if_pos h3]
        exact (cmpInt_neg_of_lt (epochMicro_lt ha hb hoff (Or.inl (Or.inr ⟨h1, Or.inr ⟨h2, h3⟩⟩)))).symm
      · rw [if_neg (by omega), if_neg (by omega)]
        rcases Nat.lt_trichotomy (a.hour) (b.hour) with h4 | h4 | h4
        · rw [if_pos h4]
          exact (cmpInt_neg_of_lt (epochMicro_lt ha hb hoff (Or.inr ⟨h1, h2, h3, Or.inl h4⟩))).symm
        · rw [if_neg (by omega), if_neg (by omega)]
          rcases Nat.lt_trichotomy (a.minute) (b.minute) with h5 | h5 | h5
          · rw [if_pos h5]
            exact (cmpInt_neg_of_lt (epochMicro_lt ha hb hoff (Or.inr ⟨h1, h2, h3, Or.inr ⟨h4, Or.inl h5⟩⟩))).symm
          · rw [if_neg (by omega), if_neg (by omega)]
            rcases Nat.lt_trichotomy (a.second) (b.second) with h6 | h6 | h6
            · rw [if_pos h6]
              exact (cmpInt_neg_of_lt (epochMicro_lt ha hb hoff (Or.inr ⟨h1, h2, h3, Or.inr ⟨h4, Or.inr ⟨h5, Or.inl h6⟩⟩⟩))).symm
            · rw [if_neg (by omega), if_neg (by omega)]
              rcases Nat.lt_trichotomy (a.micro / 1000) (b.micro / 1000) with h7 | h7 | h7
              · rw [if_pos h7]
                have hmicro : a.micro < b.micro := lt_of_div_lt (by norm_num) h7
                exact (cmpInt_neg_of_lt (epochMicro_lt ha hb hoff (Or.inr ⟨h1, h2, h3, Or.inr ⟨h4, Or.inr ⟨h5, Or.inr ⟨h6, hmicro⟩⟩⟩⟩))).symm
              · rw [if_neg (by omega), if_neg (by omega)]
                exfalso
                apply hne
                simp only [timestamp_token]
                rw [h1, h2, h3, h4, h5, h6, h7]
              · rw [if_neg (by omega), if_pos h7]
                have hmicro : b.micro < a.micro := lt_of_div_lt (by norm_num) h7
                exact (cmpInt_pos_of_gt (epochMicro_lt hb ha hoff.symm (Or.inr ⟨h1.symm, h2.symm, h3.symm, Or.inr ⟨h4.symm, Or.inr ⟨h5.symm, Or.inr ⟨h6.symm, hmicro⟩⟩⟩⟩))).symm
            · rw [if_neg (by omega), if_pos h6]
              exact (cmpInt_pos_of_gt (epochMicro_lt hb ha hoff.symm (Or.inr ⟨h1.symm, h2.symm, h3.symm, Or.inr ⟨h4.symm, Or.inr ⟨h5.symm, Or.inl h6⟩⟩⟩))).symm
          · rw [if_neg (by omega), if_pos h5]
            exact (cmpInt_pos_of_gt (epochMicro_lt hb ha hoff.symm (Or.inr ⟨h1.symm, h2.symm, h3.symm, Or.inr ⟨h4.symm, Or.inl h5⟩⟩))).symm
        · rw [if_neg (by omega), if_pos h4]
          exact (cmpInt_pos_of_gt (epochMicro_lt hb ha hoff.symm (Or.inr ⟨h1.symm, h2.symm, h3.symm, Or.inl h4⟩))).symm
      · rw [if_neg (by omega), if_pos h3]
        exact (cmpInt_pos_of_gt (epochMicro_lt hb ha hoff.symm (Or.inl (Or.inr ⟨h1.symm, Or.inr ⟨h2.symm, h3⟩⟩)))).symm
    · rw [if_neg (by omega), if_pos h2]
      exact (cmpInt_pos_of_gt (epochMicro_lt hb ha hoff.symm (Or.inl (Or.inr ⟨h1.symm, Or.inl h2⟩)))).symm
  · rw [if_neg (by omega), if_pos h1]
    exact (cmpInt_pos_of_gt (epochMicro_lt hb ha hoff.symm (Or.inl (Or.inl h1)))).symm

/-! ### The comparator as a lexicographic key comparison -/

theorem cmpStr_refl (a : String) : cmpStr a a = 0 := by
  unfold cmpStr strLt
  rw [charsLt_irrefl]
  simp

theorem cmpStr_eq_zero_iff (a b : String) : cmpStr a b = 0 ↔ a = b := by
  unfold cmpStr strLt
  constructor
  · intro h
    by_cases h1 : charsLt a.data b.data = true
    · rw [if_pos h1] at h
      exact absurd h (by norm_num)
    · by_cases h2 : charsLt b.data a.data = true
      · rw [if_neg h1, if_pos h2] at h
        exact absurd h (by norm_num)
      · have := charsLt_total_eq a.data b.data
          (Bool.eq_false_iff.mpr (fun hc => h1 hc))
          (Bool.eq_false_iff.mpr (fun hc => h2 hc))
        exact String.ext this
  · rintro rfl
    rw [charsLt_irrefl]
    simp

theorem cmpStr_neg (a b : String) : cmpStr b a = -cmpStr a b := by
  unfold cmpStr strLt
  by_cases h1 : charsLt a.data b.data = true
  · rw [charsLt_asymm _ _ h1]
    simp [h1]
  · by_cases h2 : charsLt b.data a.data = true
    · rw [charsLt_asymm _ _ h2]
      simp [h1, h2]
    · simp [h1, h2]

theorem cmpStr_lt_trans {a b c : String}
    (h1 : cmpStr a b = -1) (h2 : cmpStr b c = -1) : cmpStr a c = -1 := by
  unfold cmpStr strLt at h1 h2 ⊢
  by_cases ha : charsLt a.data b.data = true
  · by_cases hb : charsLt b.data c.data = true
    · rw [if_pos (charsLt_trans _ _ _ ha hb)]
    · rw [if_neg hb] at h2
      split_ifs at h2
  · rw [if_neg ha] at h1
    split_ifs at h1

theorem cmpStr_cases (a b : String) :
    cmpStr a b = -1 ∨ cmpStr a b = 0 ∨ cmpStr a b = 1 := by
  unfold cmpStr
  split_ifs <;> simp

theorem take_prefix_take {T : List Nat} {m n : Nat} (h : m ≤ n) :
    T.take m <+: T.take n := by
  have h1 : (T.take n).take m = T.take m := by
    rw [List.take_take, Nat.min_eq_left h]
  exact h1 ▸ List.take_prefix m (T.take n)

theorem not_prefix_rel_of_hpr_false {a b : TimeCandidate}
    (h : has_prefix_relation a b = false) :
    ¬(precision_token a <+: precision_token b
      ∨ precision_token b <+: precision_token a) := by
  intro hor
  simp only [has_prefix_relation] at h
  by_cases hlen : (precision_token a).length = (precision_token b).length
  · rw [if_pos hlen] at h
    rcases hor with hpre | hpre
    · rw [hpre.eq_of_length hlen] at h
      simp at h
    · rw [hpre.eq_of_length hlen.symm] at h
      simp at h
  · rw [if_neg hlen] at h
    by_cases hlt : (precision_token a).length < (precision_token b).length
    · rw [if_pos hlt] at h
      rcases hor with hpre | hpre
      · rw [List.isPrefixOf_iff_prefix.mpr hpre] at h
        exact absurd h (by simp)
      · have := hpre.length_le
        omega
    · rw [if_neg hlt] at h
      rcases hor with hpre | hpre
      · have := hpre.length_le
        omega
      · rw [List.isPrefixOf_iff_prefix.mpr hpre] at h
        exact absurd h (by simp)

theorem cmpTok_take_of_not_pr :
    ∀ (A B : List Nat) (m n : Nat),
      ¬(A.take m <+: B.take n ∨ B.take n <+: A.take m) →
      cmpTok (A.take m) (B.take n) = cmpTok A B
  | [], B, m, n, h => absurd (Or.inl (by simp)) h
  | _ :: _, [], m, n, h => absurd (Or.inr (by simp)) h
  | a :: as, b :: bs, 0, n, h => absurd (Or.inl (by simp)) h
  | a :: as, b :: bs, m + 1, 0, h => absurd (Or.inr (by simp)) h
  | a :: as, b :: bs, m + 1, n + 1, h => by
    simp only [List.take_succ_cons, cmpTok]
    by_cases hab : a < b
    · rw [if_pos hab, if_pos hab]
    · by_cases hba : b < a
      · rw [if_neg hab, if_pos hba, if_neg hab, if_pos hba]
      · have heq : a = b := by omega
        subst heq
        rw [if_neg hab, if_neg hba, if_neg hab, if_neg hba]
        refine cmpTok_take_of_not_pr as bs m n ?_
        intro hor
        apply h
        rcases hor with hp | hp
        · exact Or.inl (by simpa [List.cons_prefix_cons] using hp)
        · exact Or.inr (by simpa [List.cons_prefix_cons] using hp)

/-- The three-component lexicographic key (precision token with
"proper prefix ranks earlier", then raw epoch, then source label) that
the comparator realises on equal-offset valid candidates. -/
def keyCmp (a b : TimeCandidate) : Int :=
  if cmpTok (precision_token a) (precision_token b) = 0 then
    (if cmpInt (epochMicro a.timestamp) (epochMicro b.timestamp) = 0 then
      cmpStr (candidate_from a) (candidate_from b)
     else cmpInt (epochMicro a.timestamp) (epochMicro b.timestamp))
  else cmpTok (precision_token a) (precision_token b)

theorem compare_eq_keyCmp {a b : TimeCandidate}
    (ha : a.timestamp.Valid) (hb : b.timestamp.Valid)
    (hoff : a.timestamp.off = b.timestamp.off) :
    compare_candidate a b = keyCmp a b := by
  by_cases hpr : has_prefix_relation a b = true
  · by_cases hd : precision_digits a = precision_digits b
    · have hlen : (precision_token a).length = (precision_token b).length := by
        rw [precision_token_length, precision_token_length, hd]
      have htok : precision_token a = precision_token b := by
        simp only [has_prefix_relation] at hpr
        rw [if_pos hlen] at hpr
        exact eq_of_beq hpr
      simp only [compare_candidate, keyCmp]
      rw [if_neg (fun hc => hc.2 hd), htok, cmpTok_refl, if_pos rfl]
      rcases lt_trichotomy (epochMicro a.timestamp) (epochMicro b.timestamp)
        with he | he | he
      · rw [if_pos he, cmpInt_neg_of_lt he, if_neg (by norm_num)]
      · have hz : cmpInt (epochMicro a.timestamp) (epochMicro b.timestamp) = 0 :=
          (cmpInt_eq_zero_iff _ _).mpr he
        rw [if_neg (by omega), if_neg (by omega), if_neg (fun hx => hx hd),
          hz, if_pos rfl]
        unfold cmpStr
        rfl
      · rw [if_neg (by omega), if_pos he, cmpInt_pos_of_gt he,
          if_neg (by norm_num)]
    · simp only [compare_candidate, keyCmp]
      rw [if_pos ⟨hpr, hd⟩]
      rcases Nat.lt_trichotomy (precision_token a).length
        (precision_token b).length with hlt | heq | hgt
      · simp only [has_prefix_relation] at hpr
        rw [if_neg (by omega), if_pos hlt] at hpr
        obtain ⟨r, hr⟩ := List.isPrefixOf_iff_prefix.mp hpr
        have hrne : r ≠ [] := by
          intro h0
          rw [h0, List.append_nil] at hr
          rw [hr] at hlt
          omega
        have hctok : cmpTok (precision_token a) (precision_token b) = 1 := by
          rw [← hr]
          exact cmpTok_append_right _ _ hrne
        have hdlt : precision_digits a < precision_digits b := by
          rw [← precision_token_length, ← precision_token_length]
          exact hlt
        rw [if_neg (Nat.not_lt.mpr (Nat.le_of_lt hdlt)), hctok,
          if_neg (by norm_num)]
      · exfalso
        apply hd
        rw [← precision_token_length, ← precision_token_length, heq]
      · simp only [has_prefix_relation] at hpr
        rw [if_neg (by omega), if_neg (by omega)] at hpr
        obtain ⟨r, hr⟩ := List.isPrefixOf_iff_prefix.mp hpr
        have hrne : r ≠ [] := by
          intro h0
          rw [h0, List.append_nil] at hr
          rw [hr] at hgt
          omega
        have hctok : cmpTok (precision_token a) (precision_token b) = -1 := by
          rw [← hr]
          exact cmpTok_append_left _ _ hrne
        have hdgt : precision_digits b < precision_digits a := by
          rw [← precision_token_length, ← precision_token_length]
          exact hgt
        rw [if_pos hdgt, hctok, if_neg (by norm_num)]
  · have hprf : has_prefix_relation a b = false := Bool.eq_false_iff.mpr hpr
    have hnot := not_prefix_rel_of_hpr_false hprf
    have hTne : timestamp_token a.timestamp ≠ timestamp_token b.timestamp := by
      intro hT
      apply hnot
      simp only [precision_token, hT]
      rcases Nat.le_total (precision_digits a) (precision_digits b) with hmn | hmn
      · exact Or.inl (take_prefix_take hmn)
      · exact Or.inr (take_prefix_take hmn)
    have htake := cmpTok_take_of_not_pr (timestamp_token a.timestamp)
      (timestamp_token b.timestamp) (precision_digits a) (precision_digits b)
      (by simpa only [precision_token] using hnot)
    have hcmp := cmpTok_token_eq_cmpInt ha hb hoff hTne
    have hez : epochMicro a.timestamp ≠ epochMicro b.timestamp := by
      intro he
      have h0 : cmpInt (epochMicro a.timestamp) (epochMicro b.timestamp) = 0 :=
        (cmpInt_eq_zero_iff _ _).mpr he
      rw [h0] at hcmp
      exact hTne ((cmpTok_eq_zero_iff _ _).mp hcmp)
    have hkey : cmpTok (precision_token a) (precision_token b)
        = cmpInt (epochMicro a.timestamp) (epochMicro b.timestamp) := by
      simp only [precision_token]
      rw [htake, hcmp]
    simp only [compare_candidate, keyCmp]
    rw [if_neg (fun hc => hpr hc.1)]
    rw [hkey, if_neg (fun hc => hez ((cmpInt_eq_zero_iff _ _).mp hc))]
    rcases lt_trichotomy (epochMicro a.timestamp) (epochMicro b.timestamp)
      with he | he | he
    · rw [if_pos he, cmpInt_neg_of_lt he]
    · exact absurd he hez
    · rw [if_neg (by omega), if_pos he, cmpInt_pos_of_gt he]

theorem cmpInt_cases (x y : Int) : cmpInt x y = -1 ∨ cmpInt x y = 0 ∨ cmpInt x y = 1 := by
  unfold cmpInt
  split_ifs <;> simp

theorem cmpInt_eq_neg_iff (x y : Int) : cmpInt x y = -1 ↔ x < y := by
  unfold cmpInt
  split_ifs with h1 h2
  · simp [h1]
  · constructor
    · intro h; exact absurd h (by norm_num)
    · intro h; omega
  · constructor
    · intro h; exact absurd h (by norm_num)
    · intro h; omega

theorem keyCmp_congr_left {a b c : TimeCandidate}
    (ht : precision_token a = precision_token b)
    (he : epochMicro a.timestamp = epochMicro b.timestamp)
    (hsrc : candidate_from a = candidate_from b) :
    keyCmp a c = keyCmp b c := by
  unfold keyCmp
  rw [ht, he, hsrc]

theorem keyCmp_congr_right {a b c : TimeCandidate}
    (ht : precision_token b = precision_token c)
    (he : epochMicro b.timestamp = epochMicro c.timestamp)
    (hsrc : candidate_from b = candidate_from c) :
    keyCmp a b = keyCmp a c := by
  unfold keyCmp
  rw [ht, he, hsrc]

theorem keyCmp_cases (a b : TimeCandidate) :
    keyCmp a b = -1 ∨ keyCmp a b = 0 ∨ keyCmp a b = 1 := by
  unfold keyCmp
  split_ifs with h1 h2
  · exact cmpStr_cases _ _
  · exact cmpInt_cases _ _
  · exact cmpTok_cases _ _

theorem keyCmp_eq_zero_iff (a b : TimeCandidate) :
    keyCmp a b = 0 ↔ (precision_token a = precision_token b
      ∧ epochMicro a.timestamp = epochMicro b.timestamp
      ∧ candidate_from a = candidate_from b) := by
  unfold keyCmp
  split_ifs with h1 h2
  · rw [cmpStr_eq_zero_iff]
    constructor
    · intro h
      exact ⟨(cmpTok_eq_zero_iff _ _).mp h1, (cmpInt_eq_zero_iff _ _).mp h2, h⟩
    · intro h
      exact h.2.2
  · constructor
    · intro h
      exact absurd h h2
    · intro h
      exact absurd ((cmpInt_eq_zero_iff _ _).mpr h.2.1) h2
  · constructor
    · intro h
      exact absurd h h1
    · intro h
      exact absurd ((cmpTok_eq_zero_iff _ _).mpr h.1) h1

theorem keyCmp_lt_trans {a b c : TimeCandidate}
    (h1 : keyCmp a b = -1) (h2 : keyCmp b c = -1) : keyCmp a c = -1 := by
  unfold keyCmp at h1 h2 ⊢
  by_cases t1 : cmpTok (precision_token a) (precision_token b) = 0
  · rw [if_pos t1] at h1
    have htok : precision_token a = precision_token b := (cmpTok_eq_zero_iff _ _).mp t1
    by_cases e1 : cmpInt (epochMicro a.timestamp) (epochMicro b.timestamp) = 0
    · rw [if_pos e1] at h1
      have hep : epochMicro a.timestamp = epochMicro b.timestamp :=
        (cmpInt_eq_zero_iff _ _).mp e1
      rw [htok, hep]
      by_cases t2 : cmpTok (precision_token b) (precision_token c) = 0
      · rw [if_pos t2] at h2 ⊢
        by_cases e2 : cmpInt (epochMicro b.timestamp) (epochMicro c.timestamp) = 0
        · rw [if_pos e2] at h2 ⊢
          exact cmpStr_lt_trans h1 h2
        · rw [if_neg e2] at h2 ⊢
          exact h2
      · rw [if_neg t2] at h2 ⊢
        exact h2
    · rw [if_neg e1] at h1
      have hea : epochMicro a.timestamp < epochMicro b.timestamp :=
        (cmpInt_eq_neg_iff _ _).mp h1
      rw [htok]
      by_cases t2 : cmpTok (precision_token b) (precision_token c) = 0
      · rw [if_pos t2] at h2 ⊢
        by_cases e2 : cmpInt (epochMicro b.timestamp) (epochMicro c.timestamp) = 0
        · have hec : epochMicro b.timestamp = epochMicro c.timestamp :=
            (cmpInt_eq_zero_iff _ _).mp e2
          rw [← hec, if_neg e1]
          exact h1
        · rw [if_neg e2] at h2
          have heb := (cmpInt_eq_neg_iff _ _).mp h2
          have hac : epochMicro a.timestamp < epochMicro c.timestamp := lt_trans hea heb
          rw [if_neg (fun hz => by
            have := (cmpInt_eq_zero_iff _ _).mp hz
            omega)]
          exact (cmpInt_eq_neg_iff _ _).mpr hac
      · rw [if_neg t2] at h2 ⊢
        exact h2
  · rw [if_neg t1] at h1
    by_cases t2 : cmpTok (precision_token b) (precision_token c) = 0
    · have htbc : precision_token b = precision_token c := (cmpTok_eq_zero_iff _ _).mp t2
      rw [← htbc, if_neg t1]
      exact h1
    · rw [if_neg t2] at h2
      have h3 := cmpTok_lt_trans _ _ _ h1 h2
      rw [if_neg (fun hz => by
        rw [hz] at h3
        exact absurd h3 (by norm_num))]
      exact h3

theorem keyCmp_zero_trans {a b c : TimeCandidate}
    (h1 : keyCmp a b = 0) (h2 : keyCmp b c = 0) : keyCmp a c = 0 := by
  obtain ⟨t1, e1, s1⟩ := (keyCmp_eq_zero_iff _ _).mp h1
  obtain ⟨t2, e2, s2⟩ := (keyCmp_eq_zero_iff _ _).mp h2
  exact (keyCmp_eq_zero_iff _ _).mpr ⟨t1.trans t2, e1.trans e2, s1.trans s2⟩

theorem keyCmp_le_trans {a b c : TimeCandidate}
    (h1 : keyCmp a b ≤ 0) (h2 : keyCmp b c ≤ 0) : keyCmp a c ≤ 0 := by
  rcases keyCmp_cases a b with k1 | k1 | k1
  · rcases keyCmp_cases b c with k2 | k2 | k2
    · rw [keyCmp_lt_trans k1 k2]
      norm_num
    · obtain ⟨t2, e2, s2⟩ := (keyCmp_eq_zero_iff _ _).mp k2
      rw [← keyCmp_congr_right t2 e2 s2, k1]
      norm_num
    · rw [k2] at h2
      exact absurd h2 (by norm_num)
  · obtain ⟨t1, e1, s1⟩ := (keyCmp_eq_zero_iff _ _).mp k1
    rw [keyCmp_congr_left t1 e1 s1]
    exact h2
  · rw [k1] at h1
    exact absurd h1 (by norm_num)

/-! ### The comparator is antisymmetric and irreflexive without hypotheses -/

theorem compare_candidate_self (a : TimeCandidate) : compare_candidate a a = 0 := by
  simp only [compare_candidate]
  have hs : strLt (candidate_from a) (candidate_from a) = false := charsLt_irrefl _
  rw [if_neg (fun hc => hc.2 rfl), if_neg (lt_irrefl _), if_neg (lt_irrefl _),
    if_neg (fun hx => hx rfl), if_neg (by simp [hs]), if_neg (by simp [hs])]

theorem compare_candidate_neg (a b : TimeCandidate) :
    compare_candidate b a = -compare_candidate a b := by
  have hsym : has_prefix_relation b a = has_prefix_relation a b :=
    has_prefix_relation_symm a b
  simp only [compare_candidate]
  by_cases hc : has_prefix_relation a b = true ∧ precision_digits a ≠ precision_digits b
  · have hc' : has_prefix_relation b a = true
        ∧ precision_digits b ≠ precision_digits a :=
      ⟨by rw [hsym]; exact hc.1, Ne.symm hc.2⟩
    rw [if_pos hc', if_pos hc]
    rcases Nat.lt_trichotomy (precision_digits a) (precision_digits b) with h | h | h
    · rw [if_pos h, if_neg (Nat.not_lt.mpr (Nat.le_of_lt h))]
    · exact absurd h hc.2
    · rw [if_neg (Nat.not_lt.mpr (Nat.le_of_lt h)), if_pos h]
      norm_num
  · have hc' : ¬(has_prefix_relation b a = true
        ∧ precision_digits b ≠ precision_digits a) := by
      intro hx
      exact hc ⟨by rw [← hsym]; exact hx.1, Ne.symm hx.2⟩
    rw [if_neg hc', if_neg hc]
    rcases lt_trichotomy (epochMicro a.timestamp) (epochMicro b.timestamp)
      with he | he | he
    · rw [if_neg (by omega), if_pos he, if_pos he]
      norm_num
    · rw [he, if_neg (lt_irrefl _), if_neg (lt_irrefl _), if_neg (lt_irrefl _),
        if_neg (lt_irrefl _)]
      by_cases hd : precision_digits a = precision_digits b
      · rw [if_neg (fun hx : precision_digits b ≠ precision_digits a => hx hd.symm),
          if_neg (fun hx : precision_digits a ≠ precision_digits b => hx hd)]
        by_cases hs1 : strLt (candidate_from a) (candidate_from b) = true
        · have hs2 : strLt (candidate_from b) (candidate_from a) = false :=
            charsLt_asymm _ _ hs1
          rw [if_neg (by simp [hs2]), if_pos hs1, if_pos hs1]
          norm_num
        · by_cases hs2 : strLt (candidate_from b) (candidate_from a) = true
          · rw [if_pos hs2, if_neg hs1, if_pos hs2]
          · rw [if_neg hs2, if_neg hs1, if_neg hs1, if_neg hs2]
            norm_num
      · rw [if_pos (Ne.symm hd), if_pos hd]
        rcases Nat.lt_trichotomy (precision_digits a) (precision_digits b)
          with h | h | h
        · rw [if_pos h, if_neg (Nat.not_lt.mpr (Nat.le_of_lt h))]
        · exact absurd h hd
        · rw [if_neg (Nat.not_lt.mpr (Nat.le_of_lt h)), if_pos h]
          norm_num
    · rw [if_pos he, if_neg (by omega), if_pos he]

theorem compare_candidate_total (a b : TimeCandidate) :
    compare_candidate a b ≤ 0 ∨ compare_candidate b a ≤ 0 := by
  have := compare_candidate_neg a b
  omega

/-! ### Restricted sortedness of the modelled stable sort -/

theorem pairwise_orderedInsert {α : Type} {r : α → α → Prop} [DecidableRel r] (x : α) :
    ∀ (l : List α), l.Pairwise r →
    (∀ y ∈ l, r x y ∨ r y x) →
    (∀ y ∈ l, ∀ z ∈ l, r x y → r y z → r x z) →
    (List.orderedInsert r x l).Pairwise r
  | [], _, _, _ => by simp
  | b :: t, hp, htot, htr => by
    simp only [List.orderedInsert]
    by_cases hxb : r x b
    · rw [if_pos hxb]
      refine List.Pairwise.cons ?_ hp
      intro z hz
      rcases List.mem_cons.mp hz with rfl | hzt
      · exact hxb
      · exact htr b (by simp) z (by simp [hzt]) hxb
          (List.rel_of_pairwise_cons hp hzt)
    · rw [if_neg hxb]
      refine List.Pairwise.cons ?_ ?_
      · intro z hz
        rcases (List.mem_orderedInsert r).mp hz with rfl | hzt
        · rcases htot b (by simp) with hbx | hbx
          · exact absurd hbx hxb
          · exact hbx
        · exact List.rel_of_pairwise_cons hp hzt
      · exact pairwise_orderedInsert x t hp.of_cons
          (fun y hy => htot y (by simp [hy]))
          (fun y hy z hz => htr y (by simp [hy]) z (by simp [hz]))

theorem pairwise_insertionSort {α : Type} {r : α → α → Prop} [DecidableRel r] :
    ∀ (l : List α),
    (∀ y ∈ l, ∀ z ∈ l, r y z ∨ r z y) →
    (∀ p ∈ l, ∀ q ∈ l, ∀ s ∈ l, r p q → r q s → r p s) →
    (List.insertionSort r l).Pairwise r
  | [], _, _ => by simp
  | x :: t, htot, htr => by
    simp only [List.insertionSort]
    have hsub : ∀ y, y ∈ List.insertionSort r t → y ∈ t :=
      fun y hy => (List.perm_insertionSort r t).subset hy
    refine pairwise_orderedInsert x _ ?_ ?_ ?_
    · exact pairwise_insertionSort t
        (fun y hy z hz => htot y (by simp [hy]) z (by simp [hz]))
        (fun p hp q hq s hs => htr p (by simp [hp]) q (by simp [hq]) s (by simp [hs]))
    · intro y hy
      exact htot x (by simp) y (by simp [hsub y hy])
    · intro y hy z hz
      exact htr x (by simp) y (by simp [hsub y hy]) z (by simp [hsub z hz])

/-- On a list of valid candidates sharing one UTC offset, the head of
the modelled sort is a minimum under the comparator. -/
theorem choose_most_likely_min {l : List TimeCandidate} {c : TimeCandidate}
    (hv : ∀ x ∈ l, x.timestamp.Valid)
    (hoff : ∀ x ∈ l, ∀ y ∈ l, x.timestamp.off = y.timestamp.off)
    (h : choose_most_likely l = Except.ok c) :
    ∀ x ∈ l, compare_candidate c x ≤ 0 := by
  match l with
  | [] => simp [choose_most_likely] at h
  | a :: t =>
    simp only [choose_most_likely, Except.ok.injEq] at h
    have htr : ∀ p ∈ a :: t, ∀ q ∈ a :: t, ∀ s ∈ a :: t,
        compare_candidate p q ≤ 0 → compare_candidate q s ≤ 0 →
        compare_candidate p s ≤ 0 := by
      intro p hp q hq s hs h1 h2
      rw [compare_eq_keyCmp (hv p hp) (hv q hq) (hoff p hp q hq)] at h1
      rw [compare_eq_keyCmp (hv q hq) (hv s hs) (hoff q hq s hs)] at h2
      rw [compare_eq_keyCmp (hv p hp) (hv s hs) (hoff p hp s hs)]
      exact keyCmp_le_trans h1 h2
    have hpw : (sort_candidates (a :: t)).Pairwise
        (fun a b => compare_candidate a b ≤ 0) :=
      pairwise_insertionSort (a :: t)
        (fun y _ z _ => compare_candidate_total y z) htr
    intro x hx
    have hxs : x ∈ sort_candidates (a :: t) :=
      (sort_candidates_perm (a :: t)).mem_iff.mpr hx
    obtain ⟨hd, tl, hL⟩ : ∃ hd tl, sort_candidates (a :: t) = hd :: tl := by
      match hS : sort_candidates (a :: t) with
      | [] => exact absurd hS (sort_candidates_ne_nil a t)
      | hd :: tl => exact ⟨hd, tl, rfl⟩
    have hc : c = hd := by
      have h1 : (sort_candidates (a :: t)).head? = some hd := by
        rw [hL]
        rfl
      have h2 : (sort_candidates (a :: t)).head?
          = some ((sort_candidates (a :: t)).head (sort_candidates_ne_nil a t)) :=
        List.head?_eq_head _
      rw [h2, h] at h1
      exact Option.some.injEq _ _ ▸ h1
    rw [hL] at hpw hxs
    rcases List.mem_cons.mp hxs with rfl | hxt
    · rw [hc, compare_candidate_self]
    · rw [hc]
      exact List.rel_of_pairwise_cons hpw hxt

/-! ### Claims C8 and C1 -/

/-- A realistic metadata candidate at UTC offset -05:00. -/
def cexA : TimeCandidate :=
  { source := "exiftool:DateTimeOriginal"
    timestamp := ⟨2020, 12, 31, 23, 0, 0, 0, some (-18000)⟩
    note := "EXIF capture datetime" }

/-- A full-datetime path candidate at UTC offset 0. -/
def cexB : TimeCandidate :=
  { source := "fs:path"
    timestamp := ⟨2021, 5, 1, 0, 0, 0, 0, some 0⟩
    note := "fs path inferred datetime"
    origin_source := some "path:filename:YYYYMMDD_HHMMSS" }

/-- A year-precision path candidate at UTC offset 0. -/
def cexC : TimeCandidate :=
  { source := "fs:path"
    timestamp := ⟨2021, 1, 1, 0, 0, 0, 0, some 0⟩
    note := "fs path inferred datetime"
    origin_source := some "path:parent:YYYY" }

/-- Claim C8 (counterexample): the pairwise comparator is not a strict
weak ordering on candidate values — transitivity fails for candidates
carrying different UTC offsets: `cexA < cexB`, `cexB < cexC`, yet
`cexC < cexA`. -/
theorem compare_candidate_not_transitive :
    compare_candidate cexA cexB = -1
    ∧ compare_candidate cexB cexC = -1
    ∧ compare_candidate cexA cexC = 1 := by decide

/-- Claim C8 (amended): the comparator is antisymmetric and
irreflexive unconditionally; restricted to valid candidates sharing a
single UTC offset it is additionally transitive with transitive
incomparability (a strict weak ordering), and on such lists the "most
likely" operation returns a minimum of the list. -/
theorem compare_candidate_swo_same_offset :
    (∀ a b : TimeCandidate, compare_candidate b a = -compare_candidate a b)
    ∧ (∀ a : TimeCandidate, compare_candidate a a = 0)
    ∧ (∀ a b c : TimeCandidate,
        a.timestamp.Valid → b.timestamp.Valid → c.timestamp.Valid →
        a.timestamp.off = b.timestamp.off → b.timestamp.off = c.timestamp.off →
        ((compare_candidate a b = -1 → compare_candidate b c = -1 →
            compare_candidate a c = -1)
         ∧ (compare_candidate a b = 0 → compare_candidate b c = 0 →
            compare_candidate a c = 0)))
    ∧ (∀ (l : List TimeCandidate) (c : TimeCandidate),
        (∀ x ∈ l, x.timestamp.Valid) →
        (∀ x ∈ l, ∀ y ∈ l, x.timestamp.off = y.timestamp.off) →
        choose_most_likely l = Except.ok c →
        ∀ x ∈ l, compare_candidate c x ≤ 0) := by
  refine ⟨compare_candidate_neg, compare_candidate_self, ?_, ?_⟩
  · intro a b c hva hvb hvc hab hbc
    constructor
    · intro h1 h2
      rw [compare_eq_keyCmp hva hvb hab] at h1
      rw [compare_eq_keyCmp hvb hvc hbc] at h2
      rw [compare_eq_keyCmp hva hvc (hab.trans hbc)]
      exact keyCmp_lt_trans h1 h2
    · intro h1 h2
      rw [compare_eq_keyCmp hva hvb hab] at h1
      rw [compare_eq_keyCmp hvb hvc hbc] at h2
      rw [compare_eq_keyCmp hva hvc (hab.trans hbc)]
      exact keyCmp_zero_trans h1 h2
  · intro l c hv hoff h
    exact choose_most_likely_min hv hoff h

/-- Witness for the amended C8: the minimum property instantiated on a
concrete same-offset list. -/
theorem compare_candidate_swo_same_offset_witness :
    compare_candidate (witCand "fs:ctime" none witDT) (witCand "fs:mtime" none witDT) ≤ 0 :=
  compare_candidate_swo_same_offset.2.2.2
    [witCand "fs:mtime" none witDT, witCand "fs:ctime" none witDT]
    (witCand "fs:ctime" none witDT)
    (by decide) (by decide) rfl
    (witCand "fs:mtime" none witDT) (by decide)

/-- Claim C1 (code bug): `_precision_digits` via `infer_path_precision`
maps the compact labels `YYYYMMDD`/`YYYYMM`/`YYYY` and both datetime
labels to 8/6/4/17 digits, but fails to recognise the locale-variant
labels `YYYY-MM-DD` and `YYYY-MM`, which therefore get the full 17
digits instead of the 8 and 6 the spec assigns them. -/
theorem precision_digits_locale_label_bug :
    infer_path_precision "path:filename:YYYY-MM-DD" = none
    ∧ infer_path_precision "path:filename:YYYY-MM" = none
    ∧ precision_digits (witCand "fs:path" (some "path:filename:YYYY-MM-DD") witDT) = 17
    ∧ precision_digits (witCand "fs:path" (some "path:filename:YYYY-MM") witDT) = 17
    ∧ precision_digits (witCand "fs:path" (some "path:filename:YYYYMMDD") witDT) = 8
    ∧ precision_digits (witCand "fs:path" (some "path:basename:YYYYMM") witDT) = 6
    ∧ precision_digits (witCand "fs:path" (some "path:parent:YYYY") witDT) = 4
    ∧ precision_digits (witCand "fs:path" (some "path:fullpath:YYYYMMDD_HHMMSS") witDT) = 17
    ∧ precision_digits (witCand "fs:path" (some "path:parent:YYYY-MM-DD HH:MM:SS") witDT) = 17
    ∧ precision_digits (witCand "fs:mtime" none witDT) = 17
    ∧ precision_digits (witCand "exiftool:DateTimeOriginal" none witDT) = 17 := by
  decide

/-! ### Backtracking matchers for the path date patterns

Python `re` alternatives are tried left to right with backtracking; a
parser returning the list of parses in preference order models this
exactly: the engine's chosen match is the first parse that also
satisfies the trailing `(?!\d)` assertion. -/

def P (α : Type) : Type := List Char → List (α × List Char)

instance : Monad P where
  pure a := fun s => [(a, s)]
  bind p f := fun s => (p s).flatMap (fun ar => f ar.1 ar.2)

/-- Alternation: left alternative preferred, as in `re`. -/
def palt {α : Type} (p q : P α) : P α := fun s => p s ++ q s

/-- Single character satisfying a predicate (a character class). -/
def pchar (pred : Char → Bool) : P Char := fun s =>
  match s with
  | [] => []
  | c :: cs => if pred c then [(c, cs)] else []

/-- Greedy `X?`: consuming first, as in `re`. -/
def popt {α : Type} (p : P α) : P (Option α) :=
  palt (do let a ← p; pure (some a)) (pure none)

def lit (c : Char) : P Char := pchar (fun x => x == c)

def chClass (l : List Char) : P Char := pchar (fun c => l.contains c)

def digitP : P Nat := do
  let c ← pchar Char.isDigit
  pure (c.toNat - 48)

def rngP (lo hi : Char) : P Nat := do
  let c ← pchar (fun c => lo ≤ c && c ≤ hi)
  pure (c.toNat - 48)

/-- `(19\d{2}|20\d{2})`. -/
def pYear : P Nat :=
  palt
    (do let _ ← lit '1'; let _ ← lit '9'; let a ← digitP; let b ← digitP
        pure (1900 + a * 10 + b))
    (do let _ ← lit '2'; let _ ← lit '0'; let a ← digitP; let b ← digitP
        pure (2000 + a * 10 + b))

/-- `(0[1-9]|1[0-2])`. -/
def pMonth2 : P Nat :=
  palt
    (do let _ ← lit '0'; rngP '1' '9')
    (do let _ ← lit '1'; let a ← rngP '0' '2'; pure (10 + a))

/-- `(0[1-9]|[12]\d|3[01])`. -/
def pDay2 : P Nat :=
  palt (do let _ ← lit '0'; rngP '1' '9')
    (palt
      (do let c ← chClass ['1', '2']; let a ← digitP
          pure ((c.toNat - 48) * 10 + a))
      (do let _ ← lit '3'; let a ← rngP '0' '1'; pure (30 + a)))

/-- `([01]\d|2[0-3])`. -/
def pHour2 : P Nat :=
  palt
    (do let c ← chClass ['0', '1']; let a ← digitP
        pure ((c.toNat - 48) * 10 + a))
    (do let _ ← lit '2'; let a ← rngP '0' '3'; pure (20 + a))

/-- `([0-5]\d)`. -/
def pMinSec2 : P Nat := do
  let a ← rngP '0' '5'
  let b ← digitP
  pure (a * 10 + b)

/-- `(0?[1-9]|1[0-2])` (delimiter-tolerant month). -/
def pMonthLoc : P Nat :=
  palt
    (do let _ ← popt (lit '0'); rngP '1' '9')
    (do let _ ← lit '1'; let a ← rngP '0' '2'; pure (10 + a))

/-- `(0?[1-9]|[12]\d|3[01])` (delimiter-tolerant day). -/
def pDayLoc : P Nat :=
  palt (do let _ ← popt (lit '0'); rngP '1' '9')
    (palt
      (do let c ← chClass ['1', '2']; let a ← digitP
          pure ((c.toNat - 48) * 10 + a))
      (do let _ ← lit '3'; let a ← rngP '0' '1'; pure (30 + a)))

/-- `([01]?\d|2[0-3])` (delimiter-tolerant hour). -/
def pHourLoc : P Nat :=
  palt
    (do let c ← popt (chClass ['0', '1'])
        let a ← digitP
        pure (match c with
          | some c0 => (c0.toNat - 48) * 10 + a
          | none => a))
    (do let _ ← lit '2'; let a ← rngP '0' '3'; pure (20 + a))

/-- `(0?[0-9]|[1-5]\d)` (delimiter-tolerant minute/second). -/
def pMinLoc : P Nat :=
  palt
    (do let _ ← popt (lit '0'); rngP '0' '9')
    (do let a ← rngP '1' '5'; let b ← digitP; pure (a * 10 + b))

def sepDots : P (Option Char) := popt (chClass ['.', '_', '-', ' '])

def sepT : P (Option Char) := popt (chClass ['T', ' ', '_', '-'])

/-- The `YYYYMMDD_HHMMSS` pattern body. -/
def dt1P : P (Nat × Nat × Nat × Nat × Nat × Nat) := do
  let y ← pYear
  let _ ← sepDots
  let mo ← pMonth2
  let _ ← sepDots
  let d ← pDay2
  let _ ← sepT
  let h ← pHour2
  let _ ← sepDots
  let mi ← pMinSec2
  let _ ← sepDots
  let s ← pMinSec2
  pure (y, mo, d, h, mi, s)

/-- The locale-variant `YYYY-MM-DD HH:MM:SS` pattern body. -/
def dt2P : P (Nat × Nat × Nat × Nat × Nat × Nat) := do
  let y ← pYear
  let _ ← chClass ['.', '/', '_', '-', '年']
  let mo ← pMonthLoc
  let _ ← chClass ['.', '/', '_', '-', '月']
  let d ← pDayLoc
  let _ ← popt (lit '日')
  let _ ← sepT
  let h ← pHourLoc
  let _ ← chClass [':', '.', '_', '-', '时']
  let mi ← pMinLoc
  let _ ← chClass [':', '.', '_', '-', '分']
  let s ← pMinLoc
  let _ ← popt (lit '秒')
  pure (y, mo, d, h, mi, s)

/-- The `YYYYMMDD` pattern body. -/
def date1P : P (Nat × Nat × Nat) := do
  let y ← pYear
  let mo ← pMonth2
  let d ← pDay2
  pure (y, mo, d)

/-- The locale-variant `YYYY-MM-DD` pattern body (its two alternatives
differ only in the year prefix, so one year group covers both). -/
def date2P : P (Nat × Nat × Nat) := do
  let y ← pYear
  let _ ← chClass ['.', '/', '_', '-', '年']
  let mo ← pMonthLoc
  let _ ← chClass ['.', '/', '_', '-', '月']
  let d ← pDayLoc
  let _ ← popt (lit '日')
  pure (y, mo, d)

/-- The `YYYYMM` pattern body. -/
def month1P : P (Nat × Nat) := do
  let y ← pYear
  let _ ← sepDots
  let mo ← pMonth2
  pure (y, mo)

/-- The locale-variant `YYYY-MM` pattern body. -/
def month2P : P (Nat × Nat) := do
  let y ← pYear
  let _ ← chClass ['.', '/', '_', '-', '年']
  let mo ← pMonthLoc
  let _ ← popt (lit '月')
  pure (y, mo)

/-- The bare-year pattern body. -/
def yearP : P Nat := pYear

/-- The trailing `(?!\d)` assertion over the unconsumed remainder. -/
def noTrailDigit : List Char → Bool
  | [] => true
  | c :: _ => !c.isDigit

/-- The engine's match at one position: the first parse (in preference
order) whose remainder satisfies `(?!\d)`, with its length. -/
def matchAt {α : Type} (p : P α) (s : List Char) : Option (α × Nat) :=
  match (p s).find? (fun ar => noTrailDigit ar.2) with
  | some (a, rest) => some (a, s.length - rest.length)
  | none => none

/-- `finditer` over a pattern guarded by a leading `(?<!\d)`: scan left
to right, skip positions preceded by a digit, and resume after each
match (empty matches advance by one). -/
def scanAllF {α : Type} (p : P α) : Nat → Option Char → List Char → List α
  | 0, _, _ => []
  | _ + 1, _, [] => []
  | fuel + 1, prev, c :: rest =>
    let blocked := match prev with
      | some pc => pc.isDigit
      | none => false
    if blocked then scanAllF p fuel (some c) rest
    else
      match matchAt p (c :: rest) with
      | none => scanAllF p fuel (some c) rest
      | some (a, len) =>
        if len ≤ 1 then a :: scanAllF p fuel (some c) rest
        else a :: scanAllF p fuel ((c :: rest).take len).getLast? ((c :: rest).drop len)

def scanAll {α : Type} (p : P α) (prev : Option Char) (s : List Char) : List α :=
  scanAllF p s.length prev s

/-! ### `path_inferred_candidates` -/

/-- The four text scopes of `pathlib` data the extractor scans; the
`pathlib` accessors themselves are the injected collaborator. -/
structure PathParts where
  stem : String
  name : String
  suffix : String
  parentName : String
  fspath : String
deriving DecidableEq

/-- `_build_datetime`: construct a local-zone datetime, `none` on a
`ValueError` from the `datetime` constructor. -/
def build_datetime (off : Int) (year month day hour minute second : Nat) :
    Option DT :=
  let dt : DT := ⟨year, month, day, hour, minute, second, 0, some off⟩
  if dt.Valid then some dt else none

def mkPathCand (scopeName label : String) (dt : DT) : TimeCandidate :=
  { source := "path:" ++ scopeName ++ ":" ++ label
    timestamp := dt
    note := "Path inferred by " ++ label ++ " on " ++ scopeName }

/-- One scope's scan: both datetime patterns, both date patterns, both
month patterns, then the year pattern, in the source's order. -/
def scanScope (off : Int) (scopeName : String) (text : List Char) :
    List TimeCandidate :=
  ((scanAll dt1P none text).filterMap (fun v =>
      (build_datetime off v.1 v.2.1 v.2.2.1 v.2.2.2.1 v.2.2.2.2.1 v.2.2.2.2.2).map
        (mkPathCand scopeName "YYYYMMDD_HHMMSS")))
  ++ ((scanAll dt2P none text).filterMap (fun v =>
      (build_datetime off v.1 v.2.1 v.2.2.1 v.2.2.2.1 v.2.2.2.2.1 v.2.2.2.2.2).map
        (mkPathCand scopeName "YYYY-MM-DD HH:MM:SS")))
  ++ ((scanAll date1P none text).filterMap (fun v =>
      (build_datetime off v.1 v.2.1 v.2.2 0 0 0).map
        (mkPathCand scopeName "YYYYMMDD")))
  ++ ((scanAll date2P none text).filterMap (fun v =>
      (build_datetime off v.1 v.2.1 v.2.2 0 0 0).map
        (mkPathCand scopeName "YYYY-MM-DD")))
  ++ ((scanAll month1P none text).filterMap (fun v =>
      (build_datetime off v.1 v.2 1 0 0 0).map
        (mkPathCand scopeName "YYYYMM")))
  ++ ((scanAll month2P none text).filterMap (fun v =>
      (build_datetime off v.1 v.2 1 0 0 0).map
        (mkPathCand scopeName "YYYY-MM")))
  ++ ((scanAll yearP none text).filterMap (fun y =>
      (build_datetime off y 1 1 0 0 0).map
        (mkPathCand scopeName "YYYY")))

def scanEntries (off : Int) (p : PathParts) : List TimeCandidate :=
  [("filename", p.stem), ("basename", p.name),
   ("parent", p.parentName), ("fullpath", p.fspath)].flatMap
    (fun sc => if sc.2 = "" then [] else scanScope off sc.1 sc.2.data)

/-- `path_precision_level` (local helper of `path_inferred_candidates`). -/
def path_precision_level (source : String) : Nat :=
  if strContains source "YYYYMMDD_HHMMSS"
    || strContains source "YYYY-MM-DD HH:MM:SS" then 4
  else if strEnds source ":YYYYMMDD" || strEnds source ":YYYY-MM-DD" then 3
  else if strEnds source ":YYYYMM" || strEnds source ":YYYY-MM" then 2
  else if strEnds source ":YYYY" then 1
  else 0

/-- `precision_key`. -/
def precision_key (c : TimeCandidate) : Nat × Nat × Nat × Nat × Nat × Nat × Nat :=
  let precision := path_precision_level c.source
  let ts := c.timestamp
  if precision = 1 then (1, ts.year, 0, 0, 0, 0, 0)
  else if precision = 2 then (2, ts.year, ts.month, 0, 0, 0, 0)
  else if precision = 3 then (3, ts.year, ts.month, ts.day, 0, 0, 0)
  else (4, ts.year, ts.month, ts.day, ts.hour, ts.minute, ts.second)

/-- `same_timeline_coarser`. -/
def same_timeline_coarser (coarse fine : TimeCandidate) : Bool :=
  let pc := path_precision_level coarse.source
  let pf := path_precision_level fine.source
  if pc ≤ 0 || pf ≤ pc then false
  else
    let a := coarse.timestamp
    let b := fine.timestamp
    if pc = 1 then a.year == b.year
    else if pc = 2 then a.year == b.year && a.month == b.month
    else if pc = 3 then a.year == b.year && a.month == b.month && a.day == b.day
    else false

/-- The insertion-ordered dict keyed by `precision_key`, keeping the
first candidate per key, as `by_result` does. -/
def uniqStep (acc : List TimeCandidate) (c : TimeCandidate) : List TimeCandidate :=
  if acc.any (fun c2 => precision_key c2 = precision_key c) then acc
  else acc ++ [c]

def uniqueByKey (l : List TimeCandidate) : List TimeCandidate :=
  l.foldl uniqStep []

/-- `path_inferred_candidates`.  The `other is not candidate` identity
test coincides with value inequality here because `uniqueByKey` keeps
one candidate per key and `precision_key` is a function of the value. -/
def path_inferred_candidates (off : Int) (p : PathParts) : List TimeCandidate :=
  let entries := scanEntries off p
  let unique_results := uniqueByKey entries
  let filtered := unique_results.filter (fun c =>
    !(unique_results.any (fun o => decide (o ≠ c) && same_timeline_coarser c o)))
  List.insertionSort
    (fun a b => epochMicro a.timestamp ≤ epochMicro b.timestamp) filtered

/-! ### `datetime_utils.parse_datetime` and helpers -/

/-- ASCII whitespace stripped by `str.strip()` (inputs here are ASCII). -/
def isPySpace (c : Char) : Bool :=
  c == ' ' || c == '\t' || c == '\n' || c == '\r' || c == '\x0b' || c == '\x0c'

def pyStrip (l : List Char) : List Char :=
  ((l.dropWhile isPySpace).reverse.dropWhile isPySpace).reverse

/-- `%Y` of CPython `_strptime`: exactly four digits. -/
def pY4 : P Nat := do
  let a ← digitP; let b ← digitP; let c ← digitP; let d ← digitP
  pure (a * 1000 + b * 100 + c * 10 + d)

/-- `%m`: `1[0-2]|0[1-9]|[1-9]`. -/
def pmStrp : P Nat :=
  palt (do let _ ← lit '1'; let a ← rngP '0' '2'; pure (10 + a))
    (palt (do let _ ← lit '0'; rngP '1' '9') (rngP '1' '9'))

/-- `%d`: `3[01]|[12]\d|0[1-9]|[1-9]`. -/
def pdStrp : P Nat :=
  palt (do let _ ← lit '3'; let a ← rngP '0' '1'; pure (30 + a))
    (palt
      (do let c ← chClass ['1', '2']; let a ← digitP
          pure ((c.toNat - 48) * 10 + a))
      (palt (do let _ ← lit '0'; rngP '1' '9') (rngP '1' '9')))

/-- `%H`: `2[0-3]|[0-1]\d|\d`. -/
def pHStrp : P Nat :=
  palt (do let _ ← lit '2'; let a ← rngP '0' '3'; pure (20 + a))
    (palt
      (do let c ← chClass ['0', '1']; let a ← digitP
          pure ((c.toNat - 48) * 10 + a))
      digitP)

/-- `%M`: `[0-5]\d|\d`. -/
def pMStrp : P Nat := palt pMinSec2 digitP

/-- `%S`: `6[01]|[0-5]\d|\d`. -/
def pSStrp : P Nat :=
  palt (do let _ ← lit '6'; let a ← rngP '0' '1'; pure (60 + a))
    (palt pMinSec2 digitP)

/-- A literal whitespace in a `strptime` format becomes `\s+`; greedy
with no useful backtracking here since digits and colons follow. -/
def pWhite : P Unit := fun s =>
  let w := s.takeWhile isPySpace
  if w.isEmpty then [] else [((), s.drop w.length)]

def pColon : P Char := lit ':'

/-- The `"%Y:%m:%d %H:%M:%S"` format regex of `_strptime`. -/
def exifP : P (Nat × Nat × Nat × Nat × Nat × Nat) := do
  let y ← pY4
  let _ ← pColon
  let mo ← pmStrp
  let _ ← pColon
  let d ← pdStrp
  let _ ← pWhite
  let h ← pHStrp
  let _ ← pColon
  let mi ← pMStrp
  let _ ← pColon
  let s ← pSStrp
  pure (y, mo, d, h, mi, s)

/-- `datetime.strptime(s, "%Y:%m:%d %H:%M:%S")`: `re.match` takes the
first parse; it must consume the whole string, and the fields must form
a constructible (naive) `datetime`. -/
def strptimeExif (cs : List Char) : Option DT :=
  match exifP cs with
  | [] => none
  | (v, rest) :: _ =>
    if rest = [] then
      let dt : DT := ⟨v.1, v.2.1, v.2.2.1, v.2.2.2.1, v.2.2.2.2.1, v.2.2.2.2.2, 0, none⟩
      if dt.Valid then some dt else none
    else none

def padChars (w n : Nat) : List Char :=
  (padDigits w n).map (fun d => Char.ofNat (48 + d))

/-- `datetime.isoformat()` of a naive, zero-microsecond datetime. -/
def isoformatChars (dt : DT) : List Char :=
  padChars 4 dt.year ++ '-' :: padChars 2 dt.month ++ '-' :: padChars 2 dt.day
    ++ 'T' :: padChars 2 dt.hour ++ ':' :: padChars 2 dt.minute
    ++ ':' :: padChars 2 dt.second

def readDigitsAux : Nat → Nat → List Char → Option (Nat × List Char)
  | 0, acc, s => some (acc, s)
  | _ + 1, _, [] => none
  | n + 1, acc, c :: cs =>
    if c.isDigit then readDigitsAux n (acc * 10 + (c.toNat - 48)) cs else none

def readDigits (n : Nat) (s : List Char) : Option (Nat × List Char) :=
  readDigitsAux n 0 s

/-- Time-of-day part of `fromisoformat` (CPython ≥ 3.11 calendar
forms): `HH`, `HH:MM`, `HHMM`, `HH:MM:SS`, `HHMMSS`, with an optional
`.`/`,` fraction of one to six digits. The two-digit components are
returned raw, as `_parse_hh_mm_ss_ff` does: range validation happens
afterwards, in the `datetime` constructor for the main time (the
`Valid` check below) and in `timezone`'s 24-hour bound for offsets. -/
def parseIsoTime (cs : List Char) : Option (Nat × Nat × Nat × Nat × List Char) := do
  let (h, r1) ← readDigits 2 cs
  let (mi, s, r4) ← (do
    match r1 with
    | ':' :: r2 => do
      let (mi, r3) ← readDigits 2 r2
      match r3 with
      | ':' :: r4 => do
        let (sec, r5) ← readDigits 2 r4
        pure (mi, sec, r5)
      | _ => pure (mi, 0, r3)
    | c :: _ =>
      if c.isDigit then do
        let (mi, r3) ← readDigits 2 r1
        match r3 with
        | c2 :: _ =>
          if c2.isDigit then do
            let (sec, r5) ← readDigits 2 r3
            pure (mi, sec, r5)
          else pure (mi, 0, r3)
        | [] => pure (mi, 0, r3)
      else pure (0, 0, r1)
    | [] => pure (0, 0, r1) : Option (Nat × Nat × List Char))
  let (micro, r6) ← (do
    match r4 with
    | '.' :: r5 | ',' :: r5 =>
      let ds := r5.takeWhile Char.isDigit
      if ds.length = 0 || 6 < ds.length then none
      else do
        let (v, _) ← readDigits ds.length r5
        pure (v * 10 ^ (6 - ds.length), r5.drop ds.length)
    | _ => pure (0, r4) : Option (Nat × List Char))
  pure (h, mi, s, micro, r6)

/-- Timezone suffix of `fromisoformat`: empty (naive), `Z`/`z`, or a
sign followed by a time-shaped offset. The parser takes the two-digit
components raw (no per-component range check); the only validation is
`timezone`'s, which requires the total offset to be strictly within
24 hours, so e.g. `+00:99` is accepted as 99 minutes. The bound is
exact to the microsecond; the offset itself is recorded in whole
seconds, the granularity `DT.off` models. -/
def parseIsoTz (cs : List Char) : Option (Option Int) :=
  match cs with
  | [] => some none
  | 'Z' :: [] => some (some 0)
  | 'z' :: [] => some (some 0)
  | c :: rest =>
    if c = '+' || c = '-' then
      match parseIsoTime rest with
      | some (h, mi, s, micro, []) =>
        let mag : Int := h * 3600 + mi * 60 + s
        if mag * 1000000 + micro < 86400000000 then
          some (some (if c = '-' then -mag else mag))
        else none
      | _ => none
    else none

/-- Calendar-date part of `fromisoformat`: `YYYY-MM-DD` or `YYYYMMDD`
(week dates and other exotic forms are not produced by this program). -/
def parseIsoDate (cs : List Char) : Option (Nat × Nat × Nat × List Char) := do
  let (y, r1) ← readDigits 4 cs
  match r1 with
  | '-' :: r2 => do
    let (m, r3) ← readDigits 2 r2
    match r3 with
    | '-' :: r4 => do
      let (d, r5) ← readDigits 2 r4
      pure (y, m, d, r5)
    | _ => none
  | c :: _ =>
    if c.isDigit then do
      let (m, r3) ← readDigits 2 r1
      let (d, r5) ← readDigits 2 r3
      pure (y, m, d, r5)
    else none
  | [] => pure (y, 1, 0, [])

/-- `datetime.fromisoformat` on the calendar forms this program can
produce (CPython ≥ 3.11 separator rules: any single character). -/
def fromisoformat (cs : List Char) : Option DT := do
  let (y, m, d, rest) ← parseIsoDate cs
  let (h, mi, s, micro, off) ← (do
    match rest with
    | [] => pure (0, 0, 0, 0, none)
    | _ :: r1 => do
      let (h, mi, s, micro, r2) ← parseIsoTime r1
      let off ← parseIsoTz r2
      pure (h, mi, s, micro, off)
    : Option (Nat × Nat × Nat × Nat × Option Int))
  let dt : DT := ⟨y, m, d, h, mi, s, micro, off⟩
  if dt.Valid then pure dt else none

/-- `str.replace("Z", "+00:00")`. -/
def replaceZ (l : List Char) : List Char :=
  l.flatMap (fun c => if c = 'Z' then ['+', '0', '0', ':', '0', '0'] else [c])

def rhalf : Rat := (1 : Rat) / 2

/-- Round half to even, the rounding CPython applies when converting an
epoch value to whole microseconds. -/
def roundHalfEven (q : Rat) : Int :=
  let fl := q.floor
  let frac := q - fl
  if frac < rhalf then fl
  else if rhalf < frac then fl + 1
  else if fl % 2 = 0 then fl else fl + 1

/-- Hinnant-style civil-from-days, the arithmetic behind
`datetime.fromtimestamp`'s epoch-to-calendar conversion. -/
def civilFromDays (z : Int) : Int × Int × Int :=
  let z' := z + 719468
  let era := (if 0 ≤ z' then z' else z' - 146096) / 146097
  let doe := z' - era * 146097
  let yoe := (doe - doe / 1460 + doe / 36524 - doe / 146096) / 365
  let y := yoe + era * 400
  let doy := doe - (365 * yoe + yoe / 4 - yoe / 100)
  let mp := (5 * doy + 2) / 153
  let d := doy - (153 * mp + 2) / 5 + 1
  let m := mp + (if mp < 10 then 3 else -9)
  (y + (if m ≤ 2 then 1 else 0), m, d)

/-- `datetime.fromtimestamp(e).astimezone()` for an epoch given in
whole microseconds: local civil fields with the local offset attached,
raising when the year leaves `datetime`'s 1..9999 range. -/
def fromtimestampE (eu : Int) (off : Int) : Except String DT :=
  let t := eu + off * 1000000
  let day := t.ediv 86400000000
  let rem := (t.emod 86400000000).toNat
  let ymd := civilFromDays day
  let dt : DT := ⟨ymd.1.toNat, ymd.2.1.toNat, ymd.2.2.toNat,
    rem / 1000000 / 3600, rem / 1000000 % 3600 / 60, rem / 1000000 % 60,
    rem % 1000000, some off⟩
  if dt.Valid then Except.ok dt
  else Except.error ("date value out of range")

/-- `with_local_timezone_if_naive`. -/
def with_local_timezone_if_naive (off : Int) (dt : DT) : DT :=
  match dt.off with
  | some _ => dt
  | none => { dt with off := some off }

/-- The JSON-shaped output of `run_json_command` (`Json.null` doubles
as Python's `None` for a failed invocation). -/
inductive Json where
  | null
  | bool (b : Bool)
  | num (q : Rat)
  | str (s : String)
  | arr (items : List Json)
  | obj (fields : List (String × Json))

/-- `dict.get(key)` of a JSON object, `None` when absent. -/
def jget (j : Json) (key : String) : Json :=
  match j with
  | Json.obj fields =>
    match fields.find? (fun kv => kv.1 == key) with
    | some kv => kv.2
    | none => Json.null
  | _ => Json.null

/-- Numeric branch of `parse_datetime`:
`datetime.fromtimestamp(float(value), tz=utc).astimezone()`, failures
mapped to `None`. -/
def parse_epoch_number (off : Int) (q : Rat) : Option DT :=
  match fromtimestampE (roundHalfEven (q * 1000000)) off with
  | Except.ok dt => some dt
  | Except.error _ => none

/-- String branch of `parse_datetime` after the EXIF prefix matched:
interpret the trailing characters as a timezone suffix. -/
def exif_with_suffix (parsed : DT) (text : List Char) : Option DT :=
  let suffix := (pyStrip (text.drop 19)).filter (fun c => c ≠ ' ')
  if suffix.isEmpty then some parsed
  else if suffix = ['Z'] then some { parsed with off := some 0 }
  else if (suffix.head? = some '+' || suffix.head? = some '-')
      && (suffix.length = 5 || suffix.length = 6) then
    let suffix' := if suffix.length = 5
      then suffix.take 3 ++ ':' :: suffix.drop 3 else suffix
    fromisoformat (isoformatChars parsed ++ suffix')
  else some parsed

/-- `parse_datetime` of `src/common/datetime_utils.py`.  `bool` values
take the numeric branch because Python's `bool` is an `int`. -/
def parse_datetime (off : Int) (value : Json) : Option DT :=
  match value with
  | Json.bool b => parse_epoch_number off (if b then 1 else 0)
  | Json.num q => parse_epoch_number off q
  | Json.str s =>
    let text := (pyStrip s.data).filter (fun c => c ≠ '\x00')
    if text.isEmpty then none
    else
      let exif_prefix := text.take 19
      match strptimeExif exif_prefix with
      | some parsed =>
        match exif_with_suffix parsed text with
        | some dt => some dt
        | none => fromisoformat (replaceZ text)
      | none => fromisoformat (replaceZ text)
  | _ => none

/-! ### Candidate generators and the fusion context -/

/-- `exiftool_candidates`, parameterised by the JSON payload the
`run_json_command` collaborator returned (`Json.null` for a failed or
suppressed invocation). -/
def exiftool_candidates (off : Int) (payload : Json) : List TimeCandidate :=
  match payload with
  | Json.arr (record :: _) =>
    match record with
    | Json.obj _ =>
      [("DateTimeOriginal", "EXIF capture datetime"),
       ("CreateDate", "Embedded create datetime"),
       ("DateTimeDigitized", "Digitized datetime"),
       ("CreationDate", "Container create datetime"),
       ("TrackCreateDate", "Video track create datetime"),
       ("MediaCreateDate", "Video media create datetime"),
       ("ModifyDate", "Embedded modify datetime")].filterMap (fun fn =>
        (parse_datetime off (jget record fn.1)).map (fun parsed =>
          { source := "exiftool:" ++ fn.1
            timestamp := with_local_timezone_if_naive off parsed
            note := fn.2 }))
    | _ => []
  | _ => []

/-- `ffprobe_candidates`, parameterised the same way. -/
def ffprobe_candidates (off : Int) (payload : Json) : List TimeCandidate :=
  match payload with
  | Json.obj _ =>
    let format_tags := jget (jget payload "format") "tags"
    let fmt_cands :=
      match format_tags with
      | Json.obj _ =>
        match parse_datetime off (jget format_tags "creation_time") with
        | some parsed =>
          [{ source := "ffprobe:format.tags.creation_time"
             timestamp := with_local_timezone_if_naive off parsed
             note := "ffprobe container creation_time" }]
        | none => []
      | _ => []
    let stream_cands :=
      match jget payload "streams" with
      | Json.arr streams =>
        streams.enum.filterMap (fun iv =>
          match iv.2 with
          | Json.obj _ =>
            match jget iv.2 "tags" with
            | Json.obj _ =>
              (parse_datetime off (jget (jget iv.2 "tags") "creation_time")).map
                (fun parsed =>
                  { source := "ffprobe:streams[" ++ toString iv.1
                      ++ "].tags.creation_time"
                    timestamp := with_local_timezone_if_naive off parsed
                    note := "ffprobe stream creation_time" })
            | _ => none
          | _ => none)
      | _ => []
    fmt_cands ++ stream_cands
  | _ => []

/-- The filesystem-stat collaborator's output: epoch values at the
microsecond resolution `datetime.fromtimestamp` retains. -/
structure StatResult where
  st_mtime : Int
  st_ctime : Int
  st_birthtime : Option Int
deriving DecidableEq

/-- `fs_candidates`. -/
def fs_candidates (off : Int) (stat : StatResult) (p : PathParts) :
    Except String (List TimeCandidate × TimeCandidate) := do
  let birth_time : Option DT ← (match stat.st_birthtime with
    | some b => (fromtimestampE b off).map some
    | none => pure none)
  let mtime ← fromtimestampE stat.st_mtime off
  let ctime ← fromtimestampE stat.st_ctime off
  let candidates : List TimeCandidate :=
    (match birth_time with
     | some bt => [{ source := "fs:birthtime", timestamp := bt, note := "fs birthtime" }]
     | none => [])
    ++ [{ source := "fs:mtime", timestamp := mtime, note := "fs mtime" },
        { source := "fs:ctime", timestamp := ctime, note := "fs ctime" }]
  let inferred_path_candidates := path_inferred_candidates off p
  let candidates ← (match inferred_path_candidates with
    | [] => pure candidates
    | _ :: _ => do
        let path_best ← choose_most_likely inferred_path_candidates
        pure (candidates ++
          [{ source := "fs:path", timestamp := path_best.timestamp,
             note := "fs path inferred datetime",
             origin_source := some path_best.source }]))
  let most_likely ← choose_most_likely candidates
  pure (candidates, most_likely)

def IMAGE_EXTENSIONS : List String :=
  [".jpg", ".jpeg", ".png", ".heic", ".heif", ".gif", ".bmp", ".tif", ".tiff",
   ".webp", ".dng", ".raw", ".arw", ".cr2", ".cr3", ".nef", ".orf", ".rw2"]

def VIDEO_EXTENSIONS : List String :=
  [".mp4", ".mov", ".m4v", ".avi", ".mkv", ".3gp", ".mts", ".m2ts", ".mpg",
   ".mpeg", ".wmv", ".webm"]

/-- `str.lower()` on the ASCII extension strings involved. -/
def strLower (s : String) : String := String.mk (s.data.map Char.toLower)

/-- `FileDatetimeContext`. -/
structure FileDatetimeContext where
  candidates : List TimeCandidate
  fs_most_likely : Int
  media_most_likely : Int
  most_likely : Int
deriving DecidableEq

/-- `list.index`: the position of the first equal element (its callers
only look up elements known to be present). -/
def pyIndex (l : List TimeCandidate) (x : TimeCandidate) : Int :=
  (l.findIdx (fun y => y == x) : Nat)

/-- The media-dimension candidate list `collect_file_datetime_context`
assembles: exiftool output, then ffprobe output when the extension
class calls for it. -/
def media_candidates_of (off : Int) (suffix : String)
    (exifPayload ffprobePayload : Json) (include_ffprobe_for_unknown : Bool) :
    List TimeCandidate :=
  let is_video := VIDEO_EXTENSIONS.contains suffix
  let is_image := IMAGE_EXTENSIONS.contains suffix
  exiftool_candidates off exifPayload
    ++ (if is_video || (include_ffprobe_for_unknown && !is_image && !is_video)
        then ffprobe_candidates off ffprobePayload else [])

/-- `collect_file_datetime_context`, parameterised by the two
collaborator payloads (which already reflect `require_success`) and the
stat output. -/
def collect_file_datetime_context (off : Int) (p : PathParts) (stat : StatResult)
    (exifPayload ffprobePayload : Json) (include_ffprobe_for_unknown : Bool) :
    Except String FileDatetimeContext := do
  let media_candidates := media_candidates_of off (strLower p.suffix)
    exifPayload ffprobePayload include_ffprobe_for_unknown
  let media_most_likely : Option TimeCandidate ← (match media_candidates with
    | [] => pure none
    | _ :: _ => (choose_most_likely media_candidates).map some)
  let fs_pair ← fs_candidates off stat p
  let fs_all := fs_pair.1
  let fs_most_likely := fs_pair.2
  let pair := [fs_most_likely] ++ (match media_most_likely with
    | some m => [m]
    | none => [])
  let most_likely ← choose_most_likely pair
  let candidates := media_candidates ++ fs_all
  pure
    { candidates := candidates
      fs_most_likely := pyIndex candidates fs_most_likely
      media_most_likely := match media_most_likely with
        | some m => pyIndex candidates m
        | none => -1
      most_likely := pyIndex candidates most_likely }

/-! ### Structural inversion of the context builder -/

theorem except_bind_ok {α β : Type} {x : Except String α} {f : α → Except String β}
    {b : β} : (x >>= f) = Except.ok b ↔ ∃ a, x = Except.ok a ∧ f a = Except.ok b := by
  cases x <;> simp [Bind.bind, Except.bind]

theorem fs_candidates_inv {off : Int} {stat : StatResult} {p : PathParts}
    {lst : List TimeCandidate} {best : TimeCandidate}
    (h : fs_candidates off stat p = Except.ok (lst, best)) :
    best ∈ lst
    ∧ (∃ c ∈ lst, c.source = "fs:mtime")
    ∧ (∃ c ∈ lst, c.source = "fs:ctime")
    ∧ lst ≠ [] := by
  unfold fs_candidates at h
  rw [except_bind_ok] at h
  obtain ⟨birth, hb, h⟩ := h
  rw [except_bind_ok] at h
  obtain ⟨mtime, hm, h⟩ := h
  rw [except_bind_ok] at h
  obtain ⟨ctime, hc, h⟩ := h
  rw [except_bind_ok] at h
  obtain ⟨cands, hcands, h⟩ := h
  rw [except_bind_ok] at h
  obtain ⟨most, hmost, h⟩ := h
  simp only [Pure.pure, Except.pure, Except.ok.injEq, Prod.mk.injEq] at h
  obtain ⟨hl, hbest⟩ := h
  subst hl
  subst hbest
  have hmem := choose_most_likely_mem hmost
  have hshape : ∃ t1 t2, cands
      = t1 ++ TimeCandidate.mk "fs:mtime" mtime "fs mtime" none
        :: TimeCandidate.mk "fs:ctime" ctime "fs ctime" none :: t2 := by
    rcases birth with _ | bt <;>
      rcases hpic : path_inferred_candidates off p with _ | ⟨pc, pcs⟩ <;>
      rw [hpic] at hcands
    · simp only [Pure.pure, Except.pure, Except.ok.injEq] at hcands
      exact ⟨[], [], by rw [← hcands]⟩
    · rw [except_bind_ok] at hcands
      obtain ⟨path_best, hpb, hcands⟩ := hcands
      simp only [Pure.pure, Except.pure, Except.ok.injEq] at hcands
      refine ⟨[], [TimeCandidate.mk "fs:path" path_best.timestamp
        "fs path inferred datetime" (some path_best.source)], ?_⟩
      rw [← hcands]
      rfl
    · simp only [Pure.pure, Except.pure, Except.ok.injEq] at hcands
      exact ⟨[TimeCandidate.mk "fs:birthtime" bt "fs birthtime" none], [],
        by rw [← hcands]⟩
    · rw [except_bind_ok] at hcands
      obtain ⟨path_best, hpb, hcands⟩ := hcands
      simp only [Pure.pure, Except.pure, Except.ok.injEq] at hcands
      refine ⟨[TimeCandidate.mk "fs:birthtime" bt "fs birthtime" none],
        [TimeCandidate.mk "fs:path" path_best.timestamp
          "fs path inferred datetime" (some path_best.source)], ?_⟩
      rw [← hcands]
      rfl
  obtain ⟨t1, t2, hsh⟩ := hshape
  refine ⟨hmem, ?_, ?_, ?_⟩
  · exact ⟨TimeCandidate.mk "fs:mtime" mtime "fs mtime" none, by rw [hsh]; simp, rfl⟩
  · exact ⟨TimeCandidate.mk "fs:ctime" ctime "fs ctime" none, by rw [hsh]; simp, rfl⟩
  · intro h0
    rw [h0] at hsh
    exact absurd hsh.symm (by simp)

theorem except_map_ok {α β : Type} {x : Except String α} {g : α → β} {b : β} :
    Except.map g x = Except.ok b ↔ ∃ a, x = Except.ok a ∧ g a = b := by
  cases x <;> simp [Except.map]

theorem collect_inv {off : Int} {p : PathParts} {stat : StatResult}
    {exifPayload ffprobePayload : Json} {inc : Bool} {ctx : FileDatetimeContext}
    (h : collect_file_datetime_context off p stat exifPayload ffprobePayload inc
      = Except.ok ctx) :
    ∃ fs_all fs_best mopt most,
      fs_candidates off stat p = Except.ok (fs_all, fs_best)
      ∧ (match media_candidates_of off (strLower p.suffix) exifPayload
            ffprobePayload inc with
         | [] => mopt = none
         | _ :: _ => ∃ m, choose_most_likely (media_candidates_of off
              (strLower p.suffix) exifPayload ffprobePayload inc)
              = Except.ok m ∧ mopt = some m)
      ∧ choose_most_likely ([fs_best] ++ (match mopt with
          | some m => [m] | none => [])) = Except.ok most
      ∧ ctx = FileDatetimeContext.mk
          (media_candidates_of off (strLower p.suffix) exifPayload
            ffprobePayload inc ++ fs_all)
          (pyIndex (media_candidates_of off (strLower p.suffix) exifPayload
            ffprobePayload inc ++ fs_all) fs_best)
          (match mopt with
           | some m => pyIndex (media_candidates_of off (strLower p.suffix)
               exifPayload ffprobePayload inc ++ fs_all) m
           | none => -1)
          (pyIndex (media_candidates_of off (strLower p.suffix) exifPayload
            ffprobePayload inc ++ fs_all) most) := by
  unfold collect_file_datetime_context at h
  rw [except_bind_ok] at h
  obtain ⟨mopt, hmopt, h⟩ := h
  rw [except_bind_ok] at h
  obtain ⟨fs_pair, hfs, h⟩ := h
  rw [except_bind_ok] at h
  obtain ⟨most, hmost, h⟩ := h
  simp only [Pure.pure, Except.pure, Except.ok.injEq] at h
  obtain ⟨fs_all, fs_best⟩ := fs_pair
  refine ⟨fs_all, fs_best, mopt, most, hfs, ?_, hmost, h.symm⟩
  rcases hmedia : media_candidates_of off (strLower p.suffix) exifPayload
      ffprobePayload inc with _ | ⟨mc, mcs⟩ <;> rw [hmedia] at hmopt
  · simp only [Pure.pure, Except.pure, Except.ok.injEq] at hmopt
    show mopt = none
    exact hmopt.symm
  · rw [except_map_ok] at hmopt
    obtain ⟨m, hm, hmeq⟩ := hmopt
    show ∃ m, choose_most_likely (mc :: mcs) = Except.ok m ∧ mopt = some m
    exact ⟨m, hm, hmeq.symm⟩

/-! ### Bounds of `list.index` results -/

theorem pyIndex_nonneg (l : List TimeCandidate) (x : TimeCandidate) :
    0 ≤ pyIndex l x := by
  unfold pyIndex
  omega

theorem pyIndex_lt_length {l : List TimeCandidate} {x : TimeCandidate} (h : x ∈ l) :
    pyIndex l x < (l.length : Int) := by
  unfold pyIndex
  have hlt : l.findIdx (fun y => y == x) < l.length :=
    List.findIdx_lt_length_of_exists ⟨x, h, by simp⟩
  exact_mod_cast hlt

/-! ### Concrete collection scenarios -/

def p4w : PathParts := PathParts.mk "a" "a.jpg" ".jpg" "" "a.jpg"

def s4w : StatResult := StatResult.mk 0 0 none

def mt4w : TimeCandidate :=
  TimeCandidate.mk "fs:mtime" (DT.mk 1970 1 1 0 0 0 0 (some 0)) "fs mtime" none

def ct4w : TimeCandidate :=
  TimeCandidate.mk "fs:ctime" (DT.mk 1970 1 1 0 0 0 0 (some 0)) "fs ctime" none

def ctx4w : FileDatetimeContext := FileDatetimeContext.mk [mt4w, ct4w] 1 (-1) 1

def p9 : PathParts :=
  PathParts.mk "IMG_20220430" "IMG_20220430.jpg" ".jpg" "" "IMG_20220430.jpg"

def s9 : StatResult := StatResult.mk 1651449600000000 1651449600000000 none

def ctx9 : FileDatetimeContext := FileDatetimeContext.mk
  [TimeCandidate.mk "fs:mtime" (DT.mk 2022 5 2 0 0 0 0 (some 0)) "fs mtime" none,
   TimeCandidate.mk "fs:ctime" (DT.mk 2022 5 2 0 0 0 0 (some 0)) "fs ctime" none,
   TimeCandidate.mk "fs:path" (DT.mk 2022 4 30 0 0 0 0 (some 0))
     "fs path inferred datetime" (some "path:filename:YYYYMMDD")]
  2 (-1) 2

/-- Claim C4: in every context built by `collect_file_datetime_context`,
the overall-best index is the filesystem-best index or the media-best
index — fusion never selects a third candidate — and whenever the media
dimension produced no candidates (media index is the `-1` sentinel) the
overall-best index equals the filesystem-best index. -/
theorem collect_most_likely_from_dimensions {off : Int} {p : PathParts}
    {stat : StatResult} {exifPayload ffprobePayload : Json} {inc : Bool}
    {ctx : FileDatetimeContext}
    (h : collect_file_datetime_context off p stat exifPayload ffprobePayload inc
      = Except.ok ctx) :
    (ctx.most_likely = ctx.fs_most_likely ∨ ctx.most_likely = ctx.media_most_likely)
    ∧ (ctx.media_most_likely = -1 → ctx.most_likely = ctx.fs_most_likely) := by
  obtain ⟨fs_all, fs_best, mopt, most, hfs, hmed, hmost, hctx⟩ := collect_inv h
  subst hctx
  have hmem := choose_most_likely_mem hmost
  rcases mopt with _ | m
  · have hmem2 : most ∈ [fs_best] := hmem
    simp only [List.mem_singleton] at hmem2
    subst hmem2
    exact ⟨Or.inl rfl, fun _ => rfl⟩
  · have hmem2 : most ∈ [fs_best, m] := hmem
    simp only [List.mem_cons, List.mem_singleton, List.not_mem_nil, or_false] at hmem2
    refine ⟨?_, ?_⟩
    · rcases hmem2 with h1 | h1
      · subst h1; exact Or.inl rfl
      · subst h1; exact Or.inr rfl
    · intro hneg
      exfalso
      have hneg2 : pyIndex (media_candidates_of off (strLower p.suffix) exifPayload
          ffprobePayload inc ++ fs_all) m = -1 := hneg
      have h0 := pyIndex_nonneg (media_candidates_of off (strLower p.suffix) exifPayload
          ffprobePayload inc ++ fs_all) m
      omega

/-- Concrete witness for C4: a context with no media candidates, where
the overall-best index coincides with the filesystem-best index. -/
theorem collect_most_likely_from_dimensions_witness :
    (ctx4w.most_likely = ctx4w.fs_most_likely
      ∨ ctx4w.most_likely = ctx4w.media_most_likely)
    ∧ (ctx4w.media_most_likely = -1 → ctx4w.most_likely = ctx4w.fs_most_likely) :=
  @collect_most_likely_from_dimensions 0 p4w s4w Json.null Json.null false ctx4w (by rfl)

/-- Claim C10: whenever the filesystem generator succeeds, its list
contains the `fs:mtime` and `fs:ctime` candidates and is never empty, so
the filesystem dimension never hits the empty-list error; and in every
published context the filesystem-best and overall-best indices are
in-bounds (never the `-1` sentinel), while the media index is either `-1`
or in-bounds. -/
theorem fs_dimension_always_populated :
    (∀ (off : Int) (stat : StatResult) (p : PathParts)
        (lst : List TimeCandidate) (best : TimeCandidate),
        fs_candidates off stat p = Except.ok (lst, best) →
        (∃ c ∈ lst, c.source = "fs:mtime") ∧ (∃ c ∈ lst, c.source = "fs:ctime")
        ∧ lst ≠ [])
    ∧ (∀ (off : Int) (p : PathParts) (stat : StatResult)
        (exifPayload ffprobePayload : Json) (inc : Bool)
        (ctx : FileDatetimeContext),
        collect_file_datetime_context off p stat exifPayload ffprobePayload inc
          = Except.ok ctx →
        (0 ≤ ctx.fs_most_likely ∧ ctx.fs_most_likely < (ctx.candidates.length : Int))
        ∧ (0 ≤ ctx.most_likely ∧ ctx.most_likely < (ctx.candidates.length : Int))
        ∧ (ctx.media_most_likely = -1
           ∨ (0 ≤ ctx.media_most_likely
              ∧ ctx.media_most_likely < (ctx.candidates.length : Int)))) := by
  constructor
  · intro off stat p lst best h
    obtain ⟨_, h1, h2, h3⟩ := fs_candidates_inv h
    exact ⟨h1, h2, h3⟩
  · intro off p stat exifPayload ffprobePayload inc ctx h
    obtain ⟨fs_all, fs_best, mopt, most, hfs, hmed, hmost, hctx⟩ := collect_inv h
    obtain ⟨hbestmem, -, -, -⟩ := fs_candidates_inv hfs
    subst hctx
    have hmem := choose_most_likely_mem hmost
    rcases hmedia : media_candidates_of off (strLower p.suffix) exifPayload
        ffprobePayload inc with _ | ⟨mc, mcs⟩ <;> rw [hmedia] at hmed
    · have hmed2 : mopt = none := hmed
      subst hmed2
      have hmem2 : most ∈ [fs_best] := hmem
      simp only [List.mem_singleton] at hmem2
      subst hmem2
      have hfsL : most ∈ ([] : List TimeCandidate) ++ fs_all :=
        List.mem_append_right _ hbestmem
      refine ⟨⟨pyIndex_nonneg _ _, pyIndex_lt_length hfsL⟩,
        ⟨pyIndex_nonneg _ _, pyIndex_lt_length hfsL⟩, Or.inl rfl⟩
    · have hmed2 : ∃ m, choose_most_likely (mc :: mcs) = Except.ok m
          ∧ mopt = some m := hmed
      obtain ⟨m, hm, hmeq⟩ := hmed2
      subst hmeq
      have hfsL : fs_best ∈ (mc :: mcs) ++ fs_all :=
        List.mem_append_right _ hbestmem
      have hmL : m ∈ (mc :: mcs) ++ fs_all :=
        List.mem_append_left _ (choose_most_likely_mem hm)
      have hmem2 : most ∈ [fs_best, m] := hmem
      simp only [List.mem_cons, List.mem_singleton, List.not_mem_nil, or_false] at hmem2
      have hmostL : most ∈ (mc :: mcs) ++ fs_all := by
        rcases hmem2 with h1 | h1 <;> subst h1
        · exact hfsL
        · exact hmL
      exact ⟨⟨pyIndex_nonneg _ _, pyIndex_lt_length hfsL⟩,
        ⟨pyIndex_nonneg _ _, pyIndex_lt_length hmostL⟩,
        Or.inr ⟨pyIndex_nonneg _ _, pyIndex_lt_length hmL⟩⟩

/-- Concrete witness for C10. -/
theorem fs_dimension_always_populated_witness :
    ((∃ c ∈ [mt4w, ct4w], c.source = "fs:mtime")
      ∧ (∃ c ∈ [mt4w, ct4w], c.source = "fs:ctime")
      ∧ ([mt4w, ct4w] : List TimeCandidate) ≠ [])
    ∧ ((0 ≤ ctx4w.fs_most_likely
        ∧ ctx4w.fs_most_likely < (ctx4w.candidates.length : Int))
      ∧ (0 ≤ ctx4w.most_likely
        ∧ ctx4w.most_likely < (ctx4w.candidates.length : Int))
      ∧ (ctx4w.media_most_likely = -1
        ∨ (0 ≤ ctx4w.media_most_likely
          ∧ ctx4w.media_most_likely < (ctx4w.candidates.length : Int)))) :=
  ⟨fs_dimension_always_populated.1 0 s4w p4w [mt4w, ct4w] ct4w (by rfl),
   fs_dimension_always_populated.2 0 p4w s4w Json.null Json.null false ctx4w (by rfl)⟩

/-- Claim C9 counterexample: a successfully published context whose
candidate list is not sorted by the fusion comparator — the `fs:path`
candidate ranks strictly first under the comparator yet is listed last. -/
theorem collect_candidates_not_sorted :
    collect_file_datetime_context 0 p9 s9 Json.null Json.null false = Except.ok ctx9
    ∧ ctx9.candidates ≠ sort_candidates ctx9.candidates :=
  ⟨by rfl, by decide⟩

/-- Claim C9 (amended): the candidate list published in the context is the
generation-order concatenation of the media-dimension candidates with the
filesystem-dimension candidates; it is not re-ranked by the comparator. -/
theorem collect_candidates_generation_order {off : Int} {p : PathParts}
    {stat : StatResult} {exifPayload ffprobePayload : Json} {inc : Bool}
    {ctx : FileDatetimeContext}
    (h : collect_file_datetime_context off p stat exifPayload ffprobePayload inc
      = Except.ok ctx) :
    ∃ fs_all fs_best,
      fs_candidates off stat p = Except.ok (fs_all, fs_best)
      ∧ ctx.candidates
        = media_candidates_of off (strLower p.suffix) exifPayload ffprobePayload inc
          ++ fs_all := by
  obtain ⟨fs_all, fs_best, mopt, most, hfs, hmed, hmost, hctx⟩ := collect_inv h
  exact ⟨fs_all, fs_best, hfs, by rw [hctx]⟩

/-- Concrete witness for the amended C9. -/
theorem collect_candidates_generation_order_witness :
    ∃ fs_all fs_best,
      fs_candidates 0 s9 p9 = Except.ok (fs_all, fs_best)
      ∧ ctx9.candidates
        = media_candidates_of 0 (strLower p9.suffix) Json.null Json.null false
          ++ fs_all :=
  @collect_candidates_generation_order 0 p9 s9 Json.null Json.null false ctx9 (by rfl)

/-! ### Coarser-duplicate suppression in the path extractor (C7) -/

theorem mem_foldl_uniqStep {l acc : List TimeCandidate} {a : TimeCandidate}
    (h : a ∈ l.foldl uniqStep acc) : a ∈ acc ∨ a ∈ l := by
  induction l generalizing acc with
  | nil => exact Or.inl h
  | cons c t ih =>
    rcases ih h with hacc | ht
    · unfold uniqStep at hacc
      split at hacc
      · exact Or.inl hacc
      · rcases List.mem_append.mp hacc with h1 | h1
        · exact Or.inl h1
        · exact Or.inr (List.mem_cons.mpr (Or.inl (List.mem_singleton.mp h1)))
    · exact Or.inr (List.mem_cons_of_mem _ ht)

theorem foldl_uniqStep_acc_mono {l acc : List TimeCandidate} {a : TimeCandidate}
    (h : a ∈ acc) : a ∈ l.foldl uniqStep acc := by
  induction l generalizing acc with
  | nil => exact h
  | cons c t ih =>
    refine ih ?_
    unfold uniqStep
    split
    · exact h
    · exact List.mem_append_left _ h

theorem foldl_uniqStep_cover {l : List TimeCandidate} {x : TimeCandidate}
    (h : x ∈ l) : ∀ acc, ∃ u ∈ l.foldl uniqStep acc,
      precision_key u = precision_key x := by
  induction l with
  | nil => cases h
  | cons c t ih =>
    intro acc
    rcases List.mem_cons.mp h with rfl | ht
    · simp only [List.foldl_cons]
      by_cases hc : acc.any (fun c2 => precision_key c2 = precision_key x) = true
      · obtain ⟨u, hu, hk⟩ := List.any_eq_true.mp hc
        have hu2 : u ∈ uniqStep acc x := by
          unfold uniqStep
          rw [if_pos hc]
          exact hu
        exact ⟨u, foldl_uniqStep_acc_mono hu2, of_decide_eq_true hk⟩
      · have hx : x ∈ uniqStep acc x := by
          unfold uniqStep
          rw [if_neg hc]
          exact List.mem_append_right _ (List.mem_singleton.mpr rfl)
        exact ⟨x, foldl_uniqStep_acc_mono hx, rfl⟩
    · simp only [List.foldl_cons]
      exact ih ht (uniqStep acc c)

theorem uniqueByKey_subset {l : List TimeCandidate} {a : TimeCandidate}
    (h : a ∈ uniqueByKey l) : a ∈ l := by
  rcases mem_foldl_uniqStep h with h0 | h0
  · cases h0
  · exact h0

theorem uniqueByKey_cover {l : List TimeCandidate} {x : TimeCandidate}
    (h : x ∈ l) : ∃ u ∈ uniqueByKey l, precision_key u = precision_key x :=
  foldl_uniqStep_cover h []

theorem same_timeline_coarser_self (c : TimeCandidate) :
    same_timeline_coarser c c = false := by
  simp [same_timeline_coarser]

theorem precision_key_of_level_four {f : TimeCandidate}
    (h : path_precision_level f.source = 4) :
    precision_key f = (4, f.timestamp.year, f.timestamp.month, f.timestamp.day,
      f.timestamp.hour, f.timestamp.minute, f.timestamp.second) := by
  simp [precision_key, h]

theorem level_and_year_of_key_eq {u f : TimeCandidate}
    (hf4 : path_precision_level f.source = 4)
    (hu : 1 ≤ path_precision_level u.source)
    (hk : precision_key u = precision_key f) :
    2 ≤ path_precision_level u.source
    ∧ u.timestamp.year = f.timestamp.year := by
  rw [precision_key_of_level_four hf4] at hk
  unfold precision_key at hk
  by_cases h1 : path_precision_level u.source = 1
  · rw [if_pos h1] at hk
    simp only [Prod.mk.injEq] at hk
    exact absurd hk.1 (by decide)
  by_cases h2 : path_precision_level u.source = 2
  · rw [if_neg h1, if_pos h2] at hk
    simp only [Prod.mk.injEq] at hk
    exact absurd hk.1 (by decide)
  by_cases h3 : path_precision_level u.source = 3
  · rw [if_neg h1, if_neg h2, if_pos h3] at hk
    simp only [Prod.mk.injEq] at hk
    exact absurd hk.1 (by decide)
  · rw [if_neg h1, if_neg h2, if_neg h3] at hk
    simp only [Prod.mk.injEq] at hk
    exact ⟨by omega, hk.2.1⟩

theorem same_timeline_coarser_true_of_year {c u : TimeCandidate}
    (hc1 : path_precision_level c.source = 1)
    (hu2 : 2 ≤ path_precision_level u.source)
    (hy : c.timestamp.year = u.timestamp.year) :
    same_timeline_coarser c u = true := by
  simp only [same_timeline_coarser, hc1]
  rw [if_neg (by simp; omega)]
  simp [hy]

theorem path_precision_level_mkPathCand (s L : String) (dt : DT) :
    path_precision_level (mkPathCand s L dt).source
      = path_precision_level ("path:" ++ s ++ ":" ++ L) := rfl

theorem mem_scanScope_pos {off : Int} {scopeName : String} {text : List Char}
    {c : TimeCandidate} (h : c ∈ scanScope off scopeName text)
    (hs : scopeName = "filename" ∨ scopeName = "basename"
      ∨ scopeName = "parent" ∨ scopeName = "fullpath") :
    1 ≤ path_precision_level c.source := by
  simp only [scanScope, List.mem_append, List.mem_filterMap,
    Option.map_eq_some', or_assoc] at h
  rcases h with h | h | h | h | h | h | h <;>
    obtain ⟨v, hv, dt, hdt, rfl⟩ := h <;>
    rw [path_precision_level_mkPathCand] <;>
    rcases hs with rfl | rfl | rfl | rfl <;>
    decide

theorem mem_scanEntries_pos {off : Int} {p : PathParts} {c : TimeCandidate}
    (h : c ∈ scanEntries off p) : 1 ≤ path_precision_level c.source := by
  simp only [scanEntries, List.mem_flatMap, List.mem_cons,
    List.not_mem_nil, or_false] at h
  obtain ⟨sc, hsc, hc⟩ := h
  rcases hsc with rfl | rfl | rfl | rfl <;> split at hc <;>
    first
      | exact absurd hc (List.not_mem_nil c)
      | exact mem_scanScope_pos hc (by simp)

theorem mem_path_inferred_iff {off : Int} {p : PathParts} {c : TimeCandidate} :
    c ∈ path_inferred_candidates off p ↔
    c ∈ (uniqueByKey (scanEntries off p)).filter (fun c =>
      !((uniqueByKey (scanEntries off p)).any
        (fun o => decide (o ≠ c) && same_timeline_coarser c o))) := by
  simp only [path_inferred_candidates]
  exact (List.perm_insertionSort _ _).mem_iff

/-- Claim C7: no candidate published by the path extractor is a
same-period coarsening of another published candidate; in particular,
whenever the scanned scopes produce a full-datetime match, no year-only
candidate for that same calendar year survives to the returned list. -/
theorem path_suppresses_coarser :
    (∀ (off : Int) (p : PathParts), ∀ c ∈ path_inferred_candidates off p,
        ∀ o ∈ path_inferred_candidates off p,
          same_timeline_coarser c o = false)
    ∧ (∀ (off : Int) (p : PathParts) (f : TimeCandidate),
        f ∈ scanEntries off p → path_precision_level f.source = 4 →
        ∀ c ∈ path_inferred_candidates off p,
          path_precision_level c.source = 1 →
          c.timestamp.year ≠ f.timestamp.year) := by
  constructor
  · intro off p c hc o ho
    rw [mem_path_inferred_iff] at hc ho
    obtain ⟨hcu, hcp⟩ := List.mem_filter.mp hc
    obtain ⟨hou, _⟩ := List.mem_filter.mp ho
    by_cases hoc : o = c
    · subst hoc
      exact same_timeline_coarser_self o
    · rw [Bool.not_eq_true'] at hcp
      have hall := List.any_eq_false.mp hcp o hou
      simpa [hoc] using hall
  · intro off p f hf hf4 c hc hc1 hy
    rw [mem_path_inferred_iff] at hc
    obtain ⟨hcu, hcp⟩ := List.mem_filter.mp hc
    obtain ⟨u, hu, hk⟩ := uniqueByKey_cover hf
    have hupos := mem_scanEntries_pos (uniqueByKey_subset hu)
    obtain ⟨hu2, huy⟩ := level_and_year_of_key_eq hf4 hupos hk
    have hstc : same_timeline_coarser c u = true :=
      same_timeline_coarser_true_of_year hc1 hu2 (by rw [hy, ← huy])
    have hne : u ≠ c := by
      intro he
      subst he
      omega
    rw [Bool.not_eq_true'] at hcp
    have hall := List.any_eq_false.mp hcp u hu
    simp [hne, hstc] at hall

def p7 : PathParts := PathParts.mk "2022-05-01 10.20.30_1999"
  "2022-05-01 10.20.30_1999.jpg" ".jpg" "" "2022-05-01 10.20.30_1999.jpg"

def c7year : TimeCandidate := TimeCandidate.mk "path:filename:YYYY"
  (DT.mk 1999 1 1 0 0 0 0 (some 0)) "Path inferred by YYYY on filename" none

def c7dt : TimeCandidate := TimeCandidate.mk "path:filename:YYYYMMDD_HHMMSS"
  (DT.mk 2022 5 1 10 20 30 0 (some 0))
  "Path inferred by YYYYMMDD_HHMMSS on filename" none

/-- Concrete witness for C7: on a stem carrying a full datetime of 2022
and a bare year 1999, the published year candidate is not a coarsening of
the datetime candidate and indeed names a different year. -/
theorem path_suppresses_coarser_witness :
    same_timeline_coarser c7year c7dt = false
    ∧ c7year.timestamp.year ≠ c7dt.timestamp.year :=
  ⟨path_suppresses_coarser.1 0 p7 c7year (by decide) c7dt (by decide),
   path_suppresses_coarser.2 0 p7 c7dt (by decide) (by decide)
     c7year (by decide) (by decide)⟩

/-! ### The EXIF suffix normalization (C6) -/

def dChar (d : Nat) : Char := Char.ofNat (48 + d)

theorem dChar_isDigit {k : Nat} (h : k < 10) : (dChar k).isDigit = true := by
  interval_cases k <;> decide

theorem dChar_toNat {k : Nat} (h : k < 10) : (dChar k).toNat - 48 = k := by
  interval_cases k <;> decide

theorem dChar_ne_Z {k : Nat} (h : k < 10) : dChar k ≠ 'Z' := by
  interval_cases k <;> decide

theorem padChars_two (n : Nat) :
    padChars 2 n = [dChar (n / 10 % 10), dChar (n % 10)] := by
  simp [padChars, padDigits, dChar]

theorem padChars_four (n : Nat) :
    padChars 4 n = [dChar (n / 1000 % 10), dChar (n / 100 % 10),
      dChar (n / 10 % 10), dChar (n % 10)] := by
  simp [padChars, padDigits, dChar]

theorem bindP_eq {α β : Type} (p : P α) (f : α → P β) (s : List Char) :
    (p >>= f) s = (p s).flatMap (fun ar => f ar.1 ar.2) := rfl

theorem fp_bind {α β : Type} {p : P α} {f : α → P β} {s r r' : List Char}
    {v : α} {w : β}
    (h1 : ∃ t, p s = (v, r) :: t) (h2 : ∃ t, f v r = (w, r') :: t) :
    ∃ t, (p >>= f) s = (w, r') :: t := by
  obtain ⟨t1, ht1⟩ := h1
  obtain ⟨t2, ht2⟩ := h2
  refine ⟨t2 ++ t1.flatMap (fun ar => f ar.1 ar.2), ?_⟩
  rw [bindP_eq, ht1, List.flatMap_cons]
  simp [ht2]

theorem fp_digit {k : Nat} (h : k < 10) (r : List Char) :
    ∃ t, digitP (dChar k :: r) = (k, r) :: t := by
  interval_cases k <;> exact ⟨[], rfl⟩

theorem fp_pColon (x : List Char) : ∃ t, pColon (':' :: x) = (':', x) :: t :=
  ⟨[], rfl⟩

theorem fp_pY4 {y : Nat} (hy : y ≤ 9999) (r : List Char) :
    ∃ t, pY4 (dChar (y / 1000 % 10) :: dChar (y / 100 % 10)
      :: dChar (y / 10 % 10) :: dChar (y % 10) :: r) = (y, r) :: t := by
  unfold pY4
  refine fp_bind (fp_digit (by omega) _) ?_
  refine fp_bind (fp_digit (by omega) _) ?_
  refine fp_bind (fp_digit (by omega) _) ?_
  refine fp_bind (fp_digit (by omega) _) ?_
  rw [show y / 1000 % 10 * 1000 + y / 100 % 10 * 100 + y / 10 % 10 * 10 + y % 10
    = y from by omega]
  exact ⟨[], rfl⟩

theorem fp_pm {m : Nat} (h1 : 1 ≤ m) (h2 : m ≤ 12) (r : List Char) :
    ∃ t, pmStrp (dChar (m / 10 % 10) :: dChar (m % 10) :: r) = (m, r) :: t := by
  interval_cases m <;> exact ⟨_, rfl⟩

theorem fp_pd {d : Nat} (h1 : 1 ≤ d) (h2 : d ≤ 31) (r : List Char) :
    ∃ t, pdStrp (dChar (d / 10 % 10) :: dChar (d % 10) :: r) = (d, r) :: t := by
  interval_cases d <;> exact ⟨_, rfl⟩

theorem fp_pH {h : Nat} (hh : h ≤ 23) (r : List Char) :
    ∃ t, pHStrp (dChar (h / 10 % 10) :: dChar (h % 10) :: r) = (h, r) :: t := by
  interval_cases h <;> exact ⟨_, rfl⟩

theorem fp_pM {m : Nat} (hm : m ≤ 59) (r : List Char) :
    ∃ t, pMStrp (dChar (m / 10 % 10) :: dChar (m % 10) :: r) = (m, r) :: t := by
  interval_cases m <;> exact ⟨_, rfl⟩

theorem fp_pS {s : Nat} (hs : s ≤ 59) (r : List Char) :
    ∃ t, pSStrp (dChar (s / 10 % 10) :: dChar (s % 10) :: r) = (s, r) :: t := by
  interval_cases s <;> exact ⟨_, rfl⟩

theorem fp_pWhite {k : Nat} (hk : k < 10) (r : List Char) :
    ∃ t, pWhite (' ' :: dChar k :: r) = ((), dChar k :: r) :: t := by
  interval_cases k <;> exact ⟨[], rfl⟩

/-- The family of strings whose first 19 characters are
`YYYY:MM:DD HH:MM:SS` renderings of the given fields. -/
def renderExif (y mo d h mi s : Nat) : List Char :=
  padChars 4 y ++ ':' :: (padChars 2 mo ++ ':' :: (padChars 2 d
    ++ ' ' :: (padChars 2 h ++ ':' :: (padChars 2 mi ++ ':' :: padChars 2 s))))

theorem renderExif_length (y mo d h mi s : Nat) :
    (renderExif y mo d h mi s).length = 19 := by
  simp [renderExif, padChars, padDigits_length]

theorem renderExif_chars (y mo d h mi s : Nat) :
    renderExif y mo d h mi s
      = dChar (y / 1000 % 10) :: dChar (y / 100 % 10) :: dChar (y / 10 % 10)
        :: dChar (y % 10) :: ':' :: dChar (mo / 10 % 10) :: dChar (mo % 10)
        :: ':' :: dChar (d / 10 % 10) :: dChar (d % 10) :: ' '
        :: dChar (h / 10 % 10) :: dChar (h % 10) :: ':' :: dChar (mi / 10 % 10)
        :: dChar (mi % 10) :: ':' :: dChar (s / 10 % 10) :: dChar (s % 10)
        :: [] := by
  simp [renderExif, padChars_two, padChars_four]

theorem fp_exifP {y mo d h mi s : Nat} (hy : y ≤ 9999)
    (hmo1 : 1 ≤ mo) (hmo2 : mo ≤ 12) (hd1 : 1 ≤ d) (hd2 : d ≤ 31)
    (hh : h ≤ 23) (hmi : mi ≤ 59) (hs : s ≤ 59) (r : List Char) :
    ∃ t, exifP (renderExif y mo d h mi s ++ r)
      = ((y, mo, d, h, mi, s), r) :: t := by
  rw [renderExif_chars]
  simp only [List.cons_append, List.nil_append]
  unfold exifP
  refine fp_bind (fp_pY4 hy _) ?_
  refine fp_bind (fp_pColon _) ?_
  refine fp_bind (fp_pm hmo1 hmo2 _) ?_
  refine fp_bind (fp_pColon _) ?_
  refine fp_bind (fp_pd hd1 hd2 _) ?_
  refine fp_bind (fp_pWhite (by omega) _) ?_
  refine fp_bind (fp_pH hh _) ?_
  refine fp_bind (fp_pColon _) ?_
  refine fp_bind (fp_pM hmi _) ?_
  refine fp_bind (fp_pColon _) ?_
  refine fp_bind (fp_pS hs _) ?_
  exact ⟨[], rfl⟩

theorem days_in_month_le (y m : Nat) : days_in_month y m ≤ 31 := by
  unfold days_in_month
  split
  · split <;> omega
  · split <;> omega

theorem strptimeExif_render {y mo d h mi s : Nat}
    (hv : (DT.mk y mo d h mi s 0 none).Valid) :
    strptimeExif (renderExif y mo d h mi s)
      = some (DT.mk y mo d h mi s 0 none) := by
  have hy2 : y ≤ 9999 := hv.2.1
  have hmo1 : 1 ≤ mo := hv.2.2.1
  have hmo2 : mo ≤ 12 := hv.2.2.2.1
  have hd1 : 1 ≤ d := hv.2.2.2.2.1
  have hd2 : d ≤ days_in_month y mo := hv.2.2.2.2.2.1
  have hh : h ≤ 23 := hv.2.2.2.2.2.2.1
  have hmi : mi ≤ 59 := hv.2.2.2.2.2.2.2.1
  have hs : s ≤ 59 := hv.2.2.2.2.2.2.2.2.1
  obtain ⟨t, ht⟩ := fp_exifP hy2 hmo1 hmo2 hd1
    (le_trans hd2 (days_in_month_le y mo)) hh hmi hs []
  rw [List.append_nil] at ht
  unfold strptimeExif
  rw [ht]
  simp [hv]

theorem readDigitsAux_cons {n acc : Nat} {c : Char} {cs : List Char}
    (h : c.isDigit = true) :
    readDigitsAux (n + 1) acc (c :: cs)
      = readDigitsAux n (acc * 10 + (c.toNat - 48)) cs := by
  simp [readDigitsAux, h]

theorem readDigits_two {a b : Nat} (ha : a < 10) (hb : b < 10) (r : List Char) :
    readDigits 2 (dChar a :: dChar b :: r) = some (a * 10 + b, r) := by
  rw [readDigits, readDigitsAux_cons (dChar_isDigit ha),
    readDigitsAux_cons (dChar_isDigit hb)]
  simp [readDigitsAux, dChar_toNat ha, dChar_toNat hb]

theorem readDigits_four {y : Nat} (hy : y ≤ 9999) (r : List Char) :
    readDigits 4 (dChar (y / 1000 % 10) :: dChar (y / 100 % 10)
      :: dChar (y / 10 % 10) :: dChar (y % 10) :: r) = some (y, r) := by
  rw [readDigits, readDigitsAux_cons (dChar_isDigit (by omega)),
    readDigitsAux_cons (dChar_isDigit (by omega)),
    readDigitsAux_cons (dChar_isDigit (by omega)),
    readDigitsAux_cons (dChar_isDigit (by omega))]
  rw [dChar_toNat (by omega : y / 1000 % 10 < 10),
    dChar_toNat (by omega : y / 100 % 10 < 10),
    dChar_toNat (by omega : y / 10 % 10 < 10),
    dChar_toNat (by omega : y % 10 < 10)]
  simp only [readDigitsAux, Option.some.injEq, Prod.mk.injEq]
  exact ⟨by omega, trivial⟩

theorem parseIsoTime_hm {a b c e : Nat}
    (ha : a < 10) (hb : b < 10) (hc : c < 10) (he : e < 10) :
    parseIsoTime (dChar a :: dChar b :: ':' :: dChar c :: dChar e :: [])
      = some (a * 10 + b, c * 10 + e, 0, 0, []) := by
  unfold parseIsoTime
  rw [readDigits_two ha hb]
  simp [readDigits_two hc he]

theorem parseIsoTz_pos {a b c e : Nat}
    (ha : a < 10) (hb : b < 10) (hc : c < 10) (he : e < 10)
    (hlt : (a * 10 + b) * 3600 + (c * 10 + e) * 60 < 86400) :
    parseIsoTz ('+' :: dChar a :: dChar b :: ':' :: dChar c :: dChar e :: [])
      = some (some (((a * 10 + b : Nat) : Int) * 3600
          + ((c * 10 + e : Nat) : Int) * 60)) := by
  simp [parseIsoTz, parseIsoTime_hm ha hb hc he]
  omega

theorem parseIsoTz_neg {a b c e : Nat}
    (ha : a < 10) (hb : b < 10) (hc : c < 10) (he : e < 10)
    (hlt : (a * 10 + b) * 3600 + (c * 10 + e) * 60 < 86400) :
    parseIsoTz ('-' :: dChar a :: dChar b :: ':' :: dChar c :: dChar e :: [])
      = some (some (-(((a * 10 + b : Nat) : Int) * 3600
          + ((c * 10 + e : Nat) : Int) * 60))) := by
  simp [parseIsoTz, parseIsoTime_hm ha hb hc he]
  omega

theorem parseIsoTz_bad {a b c e : Nat} {sg : Char}
    (hsg : sg = '+' ∨ sg = '-')
    (ha : a < 10) (hb : b < 10) (hc : c < 10) (he : e < 10)
    (hbad : 86400 ≤ (a * 10 + b) * 3600 + (c * 10 + e) * 60) :
    parseIsoTz (sg :: dChar a :: dChar b :: ':' :: dChar c :: dChar e :: [])
      = none := by
  rcases hsg with rfl | rfl <;>
  · simp [parseIsoTz, parseIsoTime_hm ha hb hc he]
    omega

theorem isoformatChars_chars (y mo d h mi s : Nat) :
    isoformatChars (DT.mk y mo d h mi s 0 none)
      = dChar (y / 1000 % 10) :: dChar (y / 100 % 10) :: dChar (y / 10 % 10)
        :: dChar (y % 10) :: '-' :: dChar (mo / 10 % 10) :: dChar (mo % 10)
        :: '-' :: dChar (d / 10 % 10) :: dChar (d % 10) :: 'T'
        :: dChar (h / 10 % 10) :: dChar (h % 10) :: ':' :: dChar (mi / 10 % 10)
        :: dChar (mi % 10) :: ':' :: dChar (s / 10 % 10) :: dChar (s % 10)
        :: [] := by
  simp [isoformatChars, padChars_two, padChars_four]

theorem parseIsoDate_render {y mo d : Nat}
    (hy : y ≤ 9999) (hmo : mo ≤ 99) (hd : d ≤ 99) (r : List Char) :
    parseIsoDate (dChar (y / 1000 % 10) :: dChar (y / 100 % 10)
      :: dChar (y / 10 % 10) :: dChar (y % 10) :: '-' :: dChar (mo / 10 % 10)
      :: dChar (mo % 10) :: '-' :: dChar (d / 10 % 10) :: dChar (d % 10) :: r)
      = some (y, mo, d, r) := by
  unfold parseIsoDate
  rw [readDigits_four hy]
  simp only [Option.bind_eq_bind, Option.some_bind]
  rw [readDigits_two (by omega : mo / 10 % 10 < 10) (by omega : mo % 10 < 10)]
  simp only [Option.bind_eq_bind, Option.some_bind]
  rw [readDigits_two (by omega : d / 10 % 10 < 10) (by omega : d % 10 < 10)]
  simp only [Option.some_bind, Option.pure_def, Option.some.injEq, Prod.mk.injEq,
    true_and, and_true]
  omega

theorem parseIsoTime_render {A B C E F G : Nat} {sg : Char} {zt : List Char}
    (hA : A < 10) (hB : B < 10) (hC : C < 10) (hE : E < 10)
    (hF : F < 10) (hG : G < 10) (hsg : sg = '+' ∨ sg = '-') :
    parseIsoTime (dChar A :: dChar B :: ':' :: dChar C :: dChar E :: ':'
      :: dChar F :: dChar G :: sg :: zt)
      = some (A * 10 + B, C * 10 + E, F * 10 + G, 0, sg :: zt) := by
  unfold parseIsoTime
  rw [readDigits_two hA hB]
  rcases hsg with rfl | rfl <;>
    simp [readDigits_two hC hE, readDigits_two hF hG]

theorem parseIsoDate_colon {y : Nat} (hy : y ≤ 9999) (r : List Char) :
    parseIsoDate (dChar (y / 1000 % 10) :: dChar (y / 100 % 10)
      :: dChar (y / 10 % 10) :: dChar (y % 10) :: ':' :: r) = none := by
  unfold parseIsoDate
  rw [readDigits_four hy]
  simp

theorem replaceZ_cons_ne {c : Char} {l : List Char} (h : c ≠ 'Z') :
    replaceZ (c :: l) = c :: replaceZ l := by
  simp [replaceZ, h]

theorem fallback_none {y mo d h mi s : Nat} (hy : y ≤ 9999) (sfx : List Char) :
    fromisoformat (replaceZ (renderExif y mo d h mi s ++ sfx)) = none := by
  rw [renderExif_chars]
  simp only [List.cons_append, List.nil_append]
  rw [replaceZ_cons_ne (dChar_ne_Z (by omega)),
    replaceZ_cons_ne (dChar_ne_Z (by omega)),
    replaceZ_cons_ne (dChar_ne_Z (by omega)),
    replaceZ_cons_ne (dChar_ne_Z (by omega)),
    replaceZ_cons_ne (by decide)]
  unfold fromisoformat
  rw [parseIsoDate_colon hy]
  rfl

theorem fromiso_render_pos {y mo d h mi s a b c e : Nat}
    (hv : (DT.mk y mo d h mi s 0 none).Valid)
    (ha : a < 10) (hb : b < 10) (hc : c < 10) (he : e < 10)
    (hlt : (a * 10 + b) * 3600 + (c * 10 + e) * 60 < 86400) :
    fromisoformat (isoformatChars (DT.mk y mo d h mi s 0 none)
        ++ ('+' :: dChar a :: dChar b :: ':' :: dChar c :: dChar e :: []))
      = some (DT.mk y mo d h mi s 0
          (some (((a * 10 + b : Nat) : Int) * 3600
            + ((c * 10 + e : Nat) : Int) * 60))) := by
  have hy2 : y ≤ 9999 := hv.2.1
  have hmo12 : mo ≤ 12 := hv.2.2.2.1
  have hdm : d ≤ days_in_month y mo := hv.2.2.2.2.2.1
  have hd99 : d ≤ 99 := le_trans hdm (le_trans (days_in_month_le y mo) (by omega))
  have hh : h ≤ 23 := hv.2.2.2.2.2.2.1
  have hmi : mi ≤ 59 := hv.2.2.2.2.2.2.2.1
  have hs : s ≤ 59 := hv.2.2.2.2.2.2.2.2.1
  have eh : h / 10 % 10 * 10 + h % 10 = h := by omega
  have emi : mi / 10 % 10 * 10 + mi % 10 = mi := by omega
  have es : s / 10 % 10 * 10 + s % 10 = s := by omega
  rw [isoformatChars_chars]
  simp only [List.cons_append, List.nil_append]
  unfold fromisoformat
  rw [parseIsoDate_render hy2 (by omega) hd99]
  simp only [Option.bind_eq_bind, Option.some_bind]
  rw [parseIsoTime_render (by omega) (by omega) (by omega) (by omega)
    (by omega) (by omega) (Or.inl rfl)]
  simp only [Option.bind_eq_bind, Option.some_bind]
  rw [parseIsoTz_pos ha hb hc he hlt]
  rw [eh, emi, es]
  simp
  exact hv

theorem fromiso_render_neg {y mo d h mi s a b c e : Nat}
    (hv : (DT.mk y mo d h mi s 0 none).Valid)
    (ha : a < 10) (hb : b < 10) (hc : c < 10) (he : e < 10)
    (hlt : (a * 10 + b) * 3600 + (c * 10 + e) * 60 < 86400) :
    fromisoformat (isoformatChars (DT.mk y mo d h mi s 0 none)
        ++ ('-' :: dChar a :: dChar b :: ':' :: dChar c :: dChar e :: []))
      = some (DT.mk y mo d h mi s 0
          (some (-(((a * 10 + b : Nat) : Int) * 3600
            + ((c * 10 + e : Nat) : Int) * 60)))) := by
  have hy2 : y ≤ 9999 := hv.2.1
  have hmo12 : mo ≤ 12 := hv.2.2.2.1
  have hdm : d ≤ days_in_month y mo := hv.2.2.2.2.2.1
  have hd99 : d ≤ 99 := le_trans hdm (le_trans (days_in_month_le y mo) (by omega))
  have hh : h ≤ 23 := hv.2.2.2.2.2.2.1
  have hmi : mi ≤ 59 := hv.2.2.2.2.2.2.2.1
  have hs : s ≤ 59 := hv.2.2.2.2.2.2.2.2.1
  have eh : h / 10 % 10 * 10 + h % 10 = h := by omega
  have emi : mi / 10 % 10 * 10 + mi % 10 = mi := by omega
  have es : s / 10 % 10 * 10 + s % 10 = s := by omega
  rw [isoformatChars_chars]
  simp only [List.cons_append, List.nil_append]
  unfold fromisoformat
  rw [parseIsoDate_render hy2 (by omega) hd99]
  simp only [Option.bind_eq_bind, Option.some_bind]
  rw [parseIsoTime_render (by omega) (by omega) (by omega) (by omega)
    (by omega) (by omega) (Or.inr rfl)]
  simp only [Option.bind_eq_bind, Option.some_bind]
  rw [parseIsoTz_neg ha hb hc he hlt]
  rw [eh, emi, es]
  simp
  exact hv

theorem fromiso_render_bad {y mo d h mi s a b c e : Nat} {sg : Char}
    (hv : (DT.mk y mo d h mi s 0 none).Valid)
    (hsg : sg = '+' ∨ sg = '-')
    (ha : a < 10) (hb : b < 10) (hc : c < 10) (he : e < 10)
    (hbad : 86400 ≤ (a * 10 + b) * 3600 + (c * 10 + e) * 60) :
    fromisoformat (isoformatChars (DT.mk y mo d h mi s 0 none)
        ++ (sg :: dChar a :: dChar b :: ':' :: dChar c :: dChar e :: []))
      = none := by
  have hy2 : y ≤ 9999 := hv.2.1
  have hmo12 : mo ≤ 12 := hv.2.2.2.1
  have hdm : d ≤ days_in_month y mo := hv.2.2.2.2.2.1
  have hd99 : d ≤ 99 := le_trans hdm (le_trans (days_in_month_le y mo) (by omega))
  have hh : h ≤ 23 := hv.2.2.2.2.2.2.1
  have hmi : mi ≤ 59 := hv.2.2.2.2.2.2.2.1
  have hs : s ≤ 59 := hv.2.2.2.2.2.2.2.2.1
  rw [isoformatChars_chars]
  simp only [List.cons_append, List.nil_append]
  unfold fromisoformat
  rw [parseIsoDate_render hy2 (by omega) hd99]
  simp only [Option.bind_eq_bind, Option.some_bind]
  rw [parseIsoTime_render (by omega) (by omega) (by omega) (by omega)
    (by omega) (by omega) hsg]
  simp only [Option.bind_eq_bind, Option.some_bind]
  rw [parseIsoTz_bad hsg ha hb hc he hbad]
  rfl

/-- The stripped trailing suffix `text[19:].strip().replace(" ", "")`. -/
def strippedSuffix (sfx : List Char) : List Char :=
  (pyStrip sfx).filter (fun c => c ≠ ' ')

/-- The suffix interpretation applied by the EXIF branch. -/
def exifSuffixInterp (y mo d h mi s : Nat) (sfx' : List Char) : Option DT :=
  if sfx'.isEmpty then some (DT.mk y mo d h mi s 0 none)
  else if sfx' = ['Z'] then some (DT.mk y mo d h mi s 0 (some 0))
  else if (sfx'.head? = some '+' || sfx'.head? = some '-')
      && (sfx'.length = 5 || sfx'.length = 6) then
    fromisoformat (isoformatChars (DT.mk y mo d h mi s 0 none)
      ++ (if sfx'.length = 5 then sfx'.take 3 ++ ':' :: sfx'.drop 3 else sfx'))
  else some (DT.mk y mo d h mi s 0 none)

theorem exif_with_suffix_reduce (y mo d h mi s : Nat) (sfx : List Char) :
    exif_with_suffix (DT.mk y mo d h mi s 0 none) (renderExif y mo d h mi s ++ sfx)
      = exifSuffixInterp y mo d h mi s (strippedSuffix sfx) := by
  unfold exif_with_suffix exifSuffixInterp strippedSuffix
  rw [List.drop_left' (renderExif_length y mo d h mi s)]

/-- The whole string branch on a rendered EXIF prefix plus suffix. -/
def exifRenderResult (off : Int) (y mo d h mi s : Nat) (sfx : List Char) :
    Option DT :=
  parse_datetime off (Json.str (String.mk (renderExif y mo d h mi s ++ sfx)))

theorem parse_datetime_str (off : Int) (S : String) :
    parse_datetime off (Json.str S)
      = (if ((pyStrip S.data).filter (fun c => c ≠ '\x00')).isEmpty then none
        else
          match strptimeExif
              (((pyStrip S.data).filter (fun c => c ≠ '\x00')).take 19) with
          | some parsed =>
            match exif_with_suffix parsed
                ((pyStrip S.data).filter (fun c => c ≠ '\x00')) with
            | some dt => some dt
            | none => fromisoformat (replaceZ
                ((pyStrip S.data).filter (fun c => c ≠ '\x00')))
          | none => fromisoformat (replaceZ
              ((pyStrip S.data).filter (fun c => c ≠ '\x00')))) := rfl

theorem parse_datetime_render {off : Int} {y mo d h mi s : Nat} {sfx : List Char}
    (hv : (DT.mk y mo d h mi s 0 none).Valid)
    (hclean : (pyStrip (renderExif y mo d h mi s ++ sfx)).filter
        (fun c => c ≠ '\x00') = renderExif y mo d h mi s ++ sfx) :
    exifRenderResult off y mo d h mi s sfx
      = match exifSuffixInterp y mo d h mi s (strippedSuffix sfx) with
        | some dt => some dt
        | none => fromisoformat (replaceZ (renderExif y mo d h mi s ++ sfx)) := by
  unfold exifRenderResult
  rw [parse_datetime_str, show (String.mk (renderExif y mo d h mi s ++ sfx)).data
      = renderExif y mo d h mi s ++ sfx from rfl, hclean]
  rw [if_neg (by rw [renderExif_chars]; simp)]
  rw [List.take_left' (renderExif_length y mo d h mi s), strptimeExif_render hv]
  show (match exif_with_suffix (DT.mk y mo d h mi s 0 none)
      (renderExif y mo d h mi s ++ sfx) with
    | some dt => some dt
    | none => fromisoformat (replaceZ (renderExif y mo d h mi s ++ sfx))) = _
  rw [exif_with_suffix_reduce]

theorem exifSuffixInterp_sign {y mo d h mi s a b c e : Nat} {sg : Char}
    {S : List Char} (hsg : sg = '+' ∨ sg = '-')
    (hS : S = sg :: dChar a :: dChar b :: dChar c :: dChar e :: []
        ∨ S = sg :: dChar a :: dChar b :: ':' :: dChar c :: dChar e :: []) :
    exifSuffixInterp y mo d h mi s S
      = fromisoformat (isoformatChars (DT.mk y mo d h mi s 0 none)
          ++ (sg :: dChar a :: dChar b :: ':' :: dChar c :: dChar e :: [])) := by
  have hz : sg ≠ 'Z' := by rcases hsg with rfl | rfl <;> decide
  rcases hS with rfl | rfl <;> unfold exifSuffixInterp <;>
    rw [if_neg (by simp), if_neg (by simp [hz]),
      if_pos (by rcases hsg with rfl | rfl <;> rfl)] <;>
    rfl

/-- Claim C6 (amended): for a string whose first 19 characters render
valid EXIF fields `YYYY:MM:DD HH:MM:SS` (and which outer stripping leaves
unchanged), the normalizer interprets the stripped trailing characters as
a timezone suffix: empty yields the naive instant; `Z` yields the instant
at UTC; a `+`/`-` sign followed by `HHMM` or `HH:MM` digits whose total
offset is strictly below 24 hours yields the instant at that fixed
offset (the components are not range-checked individually, so `+0099`
counts as 99 minutes); the same sign-and-digit shapes with a total
offset of 24 hours or more yield `None` — an unparseable result,
contrary to the claim — and any other suffix falls back to the naive
instant. -/
theorem parse_datetime_exif_suffix {off : Int} {y mo d h mi s : Nat}
    {sfx : List Char}
    (hv : (DT.mk y mo d h mi s 0 none).Valid)
    (hclean : (pyStrip (renderExif y mo d h mi s ++ sfx)).filter
        (fun c => c ≠ '\x00') = renderExif y mo d h mi s ++ sfx) :
    (strippedSuffix sfx = [] →
      exifRenderResult off y mo d h mi s sfx
        = some (DT.mk y mo d h mi s 0 none))
    ∧ (strippedSuffix sfx = ['Z'] →
      exifRenderResult off y mo d h mi s sfx
        = some (DT.mk y mo d h mi s 0 (some 0)))
    ∧ (∀ a b c e : Nat, a < 10 → b < 10 → c < 10 → e < 10 →
        (strippedSuffix sfx
            = '+' :: dChar a :: dChar b :: dChar c :: dChar e :: []
          ∨ strippedSuffix sfx
            = '+' :: dChar a :: dChar b :: ':' :: dChar c :: dChar e :: []) →
        (a * 10 + b) * 3600 + (c * 10 + e) * 60 < 86400 →
        exifRenderResult off y mo d h mi s sfx
          = some (DT.mk y mo d h mi s 0
              (some (((a * 10 + b : Nat) : Int) * 3600
                + ((c * 10 + e : Nat) : Int) * 60))))
    ∧ (∀ a b c e : Nat, a < 10 → b < 10 → c < 10 → e < 10 →
        (strippedSuffix sfx
            = '-' :: dChar a :: dChar b :: dChar c :: dChar e :: []
          ∨ strippedSuffix sfx
            = '-' :: dChar a :: dChar b :: ':' :: dChar c :: dChar e :: []) →
        (a * 10 + b) * 3600 + (c * 10 + e) * 60 < 86400 →
        exifRenderResult off y mo d h mi s sfx
          = some (DT.mk y mo d h mi s 0
              (some (-(((a * 10 + b : Nat) : Int) * 3600
                + ((c * 10 + e : Nat) : Int) * 60)))))
    ∧ (∀ (sg : Char) (a b c e : Nat), (sg = '+' ∨ sg = '-') →
        a < 10 → b < 10 → c < 10 → e < 10 →
        (strippedSuffix sfx
            = sg :: dChar a :: dChar b :: dChar c :: dChar e :: []
          ∨ strippedSuffix sfx
            = sg :: dChar a :: dChar b :: ':' :: dChar c :: dChar e :: []) →
        86400 ≤ (a * 10 + b) * 3600 + (c * 10 + e) * 60 →
        exifRenderResult off y mo d h mi s sfx = none)
    ∧ (strippedSuffix sfx ≠ [] → strippedSuffix sfx ≠ ['Z'] →
        (((strippedSuffix sfx).head? = some '+'
            || (strippedSuffix sfx).head? = some '-')
          && ((strippedSuffix sfx).length = 5
            || (strippedSuffix sfx).length = 6)) = false →
        exifRenderResult off y mo d h mi s sfx
          = some (DT.mk y mo d h mi s 0 none)) := by
  have hred := @parse_datetime_render off y mo d h mi s sfx hv hclean
  refine ⟨?_, ?_, ?_, ?_, ?_, ?_⟩
  · intro hS
    rw [hred, hS]
    rfl
  · intro hS
    rw [hred, hS]
    rfl
  · intro a b c e ha hb hc he hS hlt
    rw [hred, exifSuffixInterp_sign (Or.inl rfl) hS,
      fromiso_render_pos hv ha hb hc he hlt]
  · intro a b c e ha hb hc he hS hlt
    rw [hred, exifSuffixInterp_sign (Or.inr rfl) hS,
      fromiso_render_neg hv ha hb hc he hlt]
  · intro sg a b c e hsg ha hb hc he hS hbad
    rw [hred, exifSuffixInterp_sign hsg hS,
      fromiso_render_bad hv hsg ha hb hc he hbad]
    exact fallback_none hv.2.1 sfx
  · intro hne hnz hcond
    rw [hred]
    unfold exifSuffixInterp
    rw [if_neg (by simp only [List.isEmpty_iff]; exact hne), if_neg hnz,
      if_neg (by simp [hcond])]

/-- Claim C6 counterexample: a string whose first 19 characters match the
EXIF pattern but whose trailing suffix starts with a sign and has length
five without being digits is rejected outright — `parse_datetime`
returns `None`, not a naive or offset instant. -/
theorem parse_datetime_suffix_counterexample :
    parse_datetime 0 (Json.str "2022:05:01 10:00:00+abcd") = none := by rfl

/-- Witness for the amended C6: each suffix class at concrete fields,
including `+0099`, whose minute component exceeds 59 but whose total
offset of 99 minutes is inside the 24-hour window. -/
theorem parse_datetime_exif_suffix_witness :
    exifRenderResult 0 2022 5 1 10 0 0 [] = some (DT.mk 2022 5 1 10 0 0 0 none)
    ∧ exifRenderResult 0 2022 5 1 10 0 0 ['Z']
        = some (DT.mk 2022 5 1 10 0 0 0 (some 0))
    ∧ exifRenderResult 0 2022 5 1 10 0 0 ['+', '0', '5', '3', '0']
        = some (DT.mk 2022 5 1 10 0 0 0 (some 19800))
    ∧ exifRenderResult 0 2022 5 1 10 0 0 ['+', '0', '0', '9', '9']
        = some (DT.mk 2022 5 1 10 0 0 0 (some 5940))
    ∧ exifRenderResult 0 2022 5 1 10 0 0 ['-', '0', '8', ':', '1', '5']
        = some (DT.mk 2022 5 1 10 0 0 0 (some (-29700)))
    ∧ exifRenderResult 0 2022 5 1 10 0 0 ['+', '9', '9', '9', '9'] = none
    ∧ exifRenderResult 0 2022 5 1 10 0 0 ['x', 'x']
        = some (DT.mk 2022 5 1 10 0 0 0 none) :=
  ⟨(@parse_datetime_exif_suffix 0 2022 5 1 10 0 0 [] (by decide) (by decide)).1
      (by decide),
   (@parse_datetime_exif_suffix 0 2022 5 1 10 0 0 ['Z'] (by decide)
      (by decide)).2.1 (by decide),
   (@parse_datetime_exif_suffix 0 2022 5 1 10 0 0 ['+', '0', '5', '3', '0']
      (by decide) (by decide)).2.2.1 0 5 3 0 (by decide) (by decide) (by decide)
      (by decide) (Or.inl (by decide)) (by decide),
   (@parse_datetime_exif_suffix 0 2022 5 1 10 0 0 ['+', '0', '0', '9', '9']
      (by decide) (by decide)).2.2.1 0 0 9 9 (by decide) (by decide) (by decide)
      (by decide) (Or.inl (by decide)) (by decide),
   (@parse_datetime_exif_suffix 0 2022 5 1 10 0 0 ['-', '0', '8', ':', '1', '5']
      (by decide) (by decide)).2.2.2.1 0 8 1 5 (by decide) (by decide) (by decide)
      (by decide) (Or.inr (by decide)) (by decide),
   (@parse_datetime_exif_suffix 0 2022 5 1 10 0 0 ['+', '9', '9', '9', '9']
      (by decide) (by decide)).2.2.2.2.1 '+' 9 9 9 9 (Or.inl rfl) (by decide)
      (by decide) (by decide) (by decide) (Or.inl (by decide)) (by decide),
   (@parse_datetime_exif_suffix 0 2022 5 1 10 0 0 ['x', 'x'] (by decide)
      (by decide)).2.2.2.2.2 (by decide) (by decide) (by decide)⟩

/-! ### The concrete fusion scenario of C3 -/

def p3 : PathParts :=
  PathParts.mk "IMG_20220430" "IMG_20220430.jpg" ".jpg" "" "IMG_20220430.jpg"

def exifPayload3 : Json :=
  Json.arr [Json.obj [("DateTimeOriginal", Json.str "2022:05:01 10:00:00")]]

def exifC3 (off : Int) : TimeCandidate :=
  TimeCandidate.mk "exiftool:DateTimeOriginal"
    (DT.mk 2022 5 1 10 0 0 0 (some off)) "EXIF capture datetime" none

def pc3 (off : Int) : TimeCandidate :=
  TimeCandidate.mk "path:filename:YYYYMMDD"
    (DT.mk 2022 4 30 0 0 0 0 (some off))
    "Path inferred by YYYYMMDD on filename" none

def fsPathC3 (off : Int) : TimeCandidate :=
  TimeCandidate.mk "fs:path" (DT.mk 2022 4 30 0 0 0 0 (some off))
    "fs path inferred datetime" (some "path:filename:YYYYMMDD")

theorem fromtimestampE_ok {eu off : Int} {dt : DT}
    (h : fromtimestampE eu off = Except.ok dt) :
    dt.Valid ∧ dt.off = some off := by
  simp only [fromtimestampE] at h
  split_ifs at h with hvv
  simp only [Except.ok.injEq] at h
  subst h
  exact ⟨hvv, rfl⟩

theorem DT.valid_of_valid_none {y mo d mi s micro : Nat} {hr : Nat}
    {o : Option Int} (hv : (DT.mk y mo d hr mi s micro none).Valid) :
    (DT.mk y mo d hr mi s micro o).Valid := hv

theorem timestamp_token_expand (X : DT) :
    timestamp_token X
      = X.year / 1000 % 10 :: X.year / 100 % 10 :: X.year / 10 % 10
        :: X.year % 10 :: X.month / 10 % 10 :: X.month % 10
        :: X.day / 10 % 10 :: X.day % 10 :: X.hour / 10 % 10 :: X.hour % 10
        :: X.minute / 10 % 10 :: X.minute % 10 :: X.second / 10 % 10
        :: X.second % 10 :: X.micro / 1000 / 100 % 10
        :: X.micro / 1000 / 10 % 10 :: X.micro / 1000 % 10 :: [] := by
  simp [timestamp_token, padDigits]

theorem prefix8_false {X : DT} (hv : X.Valid)
    (hne : ¬(X.year = 2022 ∧ X.month = 4 ∧ X.day = 30)) :
    (([2, 0, 2, 2, 0, 4, 3, 0] : List Nat).isPrefixOf (timestamp_token X))
      = false := by
  by_cases hp : (([2, 0, 2, 2, 0, 4, 3, 0] : List Nat).isPrefixOf
      (timestamp_token X)) = true
  case neg => exact Bool.eq_false_iff.mpr hp
  case pos =>
    exfalso
    rw [timestamp_token_expand] at hp
    simp only [List.isPrefixOf, Bool.and_eq_true, beq_iff_eq] at hp
    have hy : X.year ≤ 9999 := hv.2.1
    have hm : X.month ≤ 12 := hv.2.2.2.1
    have hd : X.day ≤ days_in_month X.year X.month := hv.2.2.2.2.2.1
    have hd31 : X.day ≤ 31 := le_trans hd (days_in_month_le _ _)
    exact hne ⟨by omega, by omega, by omega⟩

theorem fsPathC3_token (off : Int) :
    precision_token (fsPathC3 off) = [2, 0, 2, 2, 0, 4, 3, 0] := by
  unfold precision_token
  rw [show precision_digits (fsPathC3 off) = 8 from rfl, timestamp_token_expand]
  simp only [fsPathC3]
  norm_num [List.take]

theorem hpr_fsPath_false {off : Int} {x : TimeCandidate}
    (hvx : x.timestamp.Valid) (hdig : precision_digits x = 17)
    (hne : ¬(x.timestamp.year = 2022 ∧ x.timestamp.month = 4
      ∧ x.timestamp.day = 30)) :
    has_prefix_relation (fsPathC3 off) x = false := by
  have htb : precision_token x = timestamp_token x.timestamp := by
    unfold precision_token
    rw [hdig]
    exact List.take_of_length_le (by rw [timestamp_token_length])
  simp only [has_prefix_relation]
  rw [fsPathC3_token, htb]
  rw [if_neg (by simp [timestamp_token_length]),
    if_pos (by simp [timestamp_token_length])]
  exact prefix8_false hvx hne

theorem fsPath_beats {off : Int} {x : TimeCandidate}
    (hvx : x.timestamp.Valid) (hoffx : x.timestamp.off = some off)
    (hdig : precision_digits x = 17)
    (hdate : dateLt (DT.mk 2022 4 30 0 0 0 0 (some off)) x.timestamp) :
    compare_candidate (fsPathC3 off) x = -1 := by
  have hvp : (fsPathC3 off).timestamp.Valid :=
    DT.valid_of_valid_none (show (DT.mk 2022 4 30 0 0 0 0 none).Valid by decide)
  have hne : ¬(x.timestamp.year = 2022 ∧ x.timestamp.month = 4
      ∧ x.timestamp.day = 30) := by
    rintro ⟨e1, e2, e3⟩
    have h' : (2022 < x.timestamp.year
        ∨ (2022 = x.timestamp.year ∧ (4 < x.timestamp.month
          ∨ (4 = x.timestamp.month ∧ 30 < x.timestamp.day)))) := hdate
    omega
  have hpr := @hpr_fsPath_false off x hvx hdig hne
  simp only [compare_candidate]
  rw [if_neg (by simp [hpr])]
  rw [if_pos (epochMicro_lt hvp hvx (by rw [hoffx]; rfl) (Or.inl hdate))]

theorem choose_dominant {l : List TimeCandidate} {p : TimeCandidate}
    (hp : p ∈ l)
    (hv : ∀ x ∈ l, x.timestamp.Valid)
    (hoff : ∀ x ∈ l, ∀ y ∈ l, x.timestamp.off = y.timestamp.off)
    (hbeat : ∀ x ∈ l, x ≠ p → compare_candidate p x = -1) :
    choose_most_likely l = Except.ok p := by
  rcases l with _ | ⟨a, t⟩
  · exact absurd hp (List.not_mem_nil p)
  · rcases hok : choose_most_likely (a :: t) with e | c
    · simp [choose_most_likely] at hok
    · by_cases hcp : c = p
      · rw [hcp]
      · exfalso
        have hcm := choose_most_likely_mem hok
        have hmin := choose_most_likely_min hv hoff hok
        have h1 := hmin p hp
        have h2 := hbeat c hcm hcp
        have h3 := compare_candidate_neg p c
        rw [h2] at h3
        omega

theorem dateLt_0430_of_not_lt_0501 {X : DT} {o o' : Option Int}
    (h : ¬ dateLt X (DT.mk 2022 5 1 0 0 0 0 o)) :
    dateLt (DT.mk 2022 4 30 0 0 0 0 o') X := by
  have h' : ¬(X.year < 2022 ∨ (X.year = 2022
      ∧ (X.month < 5 ∨ (X.month = 5 ∧ X.day < 1)))) := h
  show 2022 < X.year ∨ (2022 = X.year
    ∧ (4 < X.month ∨ (4 = X.month ∧ 30 < X.day)))
  omega

theorem path_inferred_c3 (off : Int) :
    path_inferred_candidates off p3 = [pc3 off] := by
  simp only [path_inferred_candidates]
  rw [show scanEntries off p3
    = [pc3 off,
       TimeCandidate.mk "path:basename:YYYYMMDD" (DT.mk 2022 4 30 0 0 0 0 (some off))
         "Path inferred by YYYYMMDD on basename" none,
       TimeCandidate.mk "path:fullpath:YYYYMMDD" (DT.mk 2022 4 30 0 0 0 0 (some off))
         "Path inferred by YYYYMMDD on fullpath" none] from rfl]
  rw [show uniqueByKey [pc3 off,
       TimeCandidate.mk "path:basename:YYYYMMDD" (DT.mk 2022 4 30 0 0 0 0 (some off))
         "Path inferred by YYYYMMDD on basename" none,
       TimeCandidate.mk "path:fullpath:YYYYMMDD" (DT.mk 2022 4 30 0 0 0 0 (some off))
         "Path inferred by YYYYMMDD on fullpath" none] = [pc3 off] from rfl]
  rw [show ([pc3 off].filter (fun c =>
      !([pc3 off].any (fun o => decide (o ≠ c) && same_timeline_coarser c o))))
    = [pc3 off] from by simp [same_timeline_coarser_self]]
  rfl

set_option maxHeartbeats 1600000 in
theorem fs_candidates_c3 {off : Int} {stat : StatResult} {M C : DT}
    (hm : fromtimestampE stat.st_mtime off = Except.ok M)
    (hc : fromtimestampE stat.st_ctime off = Except.ok C)
    (hbirth : match stat.st_birthtime with
      | none => True
      | some b => ∃ B, fromtimestampE b off = Except.ok B
          ∧ dateLt (DT.mk 2022 4 30 0 0 0 0 (some off)) B)
    (hMd : dateLt (DT.mk 2022 4 30 0 0 0 0 (some off)) M)
    (hCd : dateLt (DT.mk 2022 4 30 0 0 0 0 (some off)) C) :
    ∃ lst, fs_candidates off stat p3 = Except.ok (lst, fsPathC3 off) := by
  have hvM := (fromtimestampE_ok hm).1
  have hoM := (fromtimestampE_ok hm).2
  have hvC := (fromtimestampE_ok hc).1
  have hoC := (fromtimestampE_ok hc).2
  have hvp : (fsPathC3 off).timestamp.Valid :=
    DT.valid_of_valid_none (show (DT.mk 2022 4 30 0 0 0 0 none).Valid by decide)
  rcases hbt : stat.st_birthtime with _ | b
  · refine ⟨[TimeCandidate.mk "fs:mtime" M "fs mtime" none,
      TimeCandidate.mk "fs:ctime" C "fs ctime" none, fsPathC3 off], ?_⟩
    unfold fs_candidates
    rw [hbt]
    refine except_bind_ok.mpr ⟨none, rfl, ?_⟩
    refine except_bind_ok.mpr ⟨M, hm, ?_⟩
    refine except_bind_ok.mpr ⟨C, hc, ?_⟩
    rw [path_inferred_c3]
    refine except_bind_ok.mpr ⟨[TimeCandidate.mk "fs:mtime" M "fs mtime" none,
      TimeCandidate.mk "fs:ctime" C "fs ctime" none, fsPathC3 off], rfl, ?_⟩
    refine except_bind_ok.mpr ⟨fsPathC3 off, ?_, rfl⟩
    refine choose_dominant (by simp) ?_ ?_ ?_
    · intro x hx
      simp only [List.mem_cons, List.not_mem_nil, or_false] at hx
      rcases hx with rfl | rfl | rfl
      · exact hvM
      · exact hvC
      · exact hvp
    · intro x hx y hy
      have hxo : x.timestamp.off = some off := by
        simp only [List.mem_cons, List.not_mem_nil, or_false] at hx
        rcases hx with rfl | rfl | rfl
        · exact hoM
        · exact hoC
        · rfl
      have hyo : y.timestamp.off = some off := by
        simp only [List.mem_cons, List.not_mem_nil, or_false] at hy
        rcases hy with rfl | rfl | rfl
        · exact hoM
        · exact hoC
        · rfl
      rw [hxo, hyo]
    · intro x hx hxp
      simp only [List.mem_cons, List.not_mem_nil, or_false] at hx
      rcases hx with rfl | rfl | rfl
      · exact fsPath_beats hvM hoM rfl hMd
      · exact fsPath_beats hvC hoC rfl hCd
      · exact absurd rfl hxp
  · have hb2 : ∃ B, fromtimestampE b off = Except.ok B
        ∧ dateLt (DT.mk 2022 4 30 0 0 0 0 (some off)) B := by
      rw [hbt] at hbirth
      exact hbirth
    obtain ⟨B, hB, hBd⟩ := hb2
    have hvB := (fromtimestampE_ok hB).1
    have hoB := (fromtimestampE_ok hB).2
    refine ⟨[TimeCandidate.mk "fs:birthtime" B "fs birthtime" none,
      TimeCandidate.mk "fs:mtime" M "fs mtime" none,
      TimeCandidate.mk "fs:ctime" C "fs ctime" none, fsPathC3 off], ?_⟩
    unfold fs_candidates
    rw [hbt]
    refine except_bind_ok.mpr ⟨some B, ?_, ?_⟩
    · exact except_map_ok.mpr ⟨B, hB, rfl⟩
    refine except_bind_ok.mpr ⟨M, hm, ?_⟩
    refine except_bind_ok.mpr ⟨C, hc, ?_⟩
    rw [path_inferred_c3]
    refine except_bind_ok.mpr
      ⟨[TimeCandidate.mk "fs:birthtime" B "fs birthtime" none,
        TimeCandidate.mk "fs:mtime" M "fs mtime" none,
        TimeCandidate.mk "fs:ctime" C "fs ctime" none, fsPathC3 off], rfl, ?_⟩
    refine except_bind_ok.mpr ⟨fsPathC3 off, ?_, rfl⟩
    refine choose_dominant (by simp) ?_ ?_ ?_
    · intro x hx
      simp only [List.mem_cons, List.not_mem_nil, or_false] at hx
      rcases hx with rfl | rfl | rfl | rfl
      · exact hvB
      · exact hvM
      · exact hvC
      · exact hvp
    · intro x hx y hy
      have hxo : x.timestamp.off = some off := by
        simp only [List.mem_cons, List.not_mem_nil, or_false] at hx
        rcases hx with rfl | rfl | rfl | rfl
        · exact hoB
        · exact hoM
        · exact hoC
        · rfl
      have hyo : y.timestamp.off = some off := by
        simp only [List.mem_cons, List.not_mem_nil, or_false] at hy
        rcases hy with rfl | rfl | rfl | rfl
        · exact hoB
        · exact hoM
        · exact hoC
        · rfl
      rw [hxo, hyo]
    · intro x hx hxp
      simp only [List.mem_cons, List.not_mem_nil, or_false] at hx
      rcases hx with rfl | rfl | rfl | rfl
      · exact fsPath_beats hvB hoB rfl hBd
      · exact fsPath_beats hvM hoM rfl hMd
      · exact fsPath_beats hvC hoC rfl hCd
      · exact absurd rfl hxp

/-- Claim C3: for a `.jpg` file named `IMG_20220430.jpg` whose exiftool
record carries only `DateTimeOriginal = "2022:05:01 10:00:00"`, whose
mtime falls on 2022-05-02 and whose ctime (and birthtime, when present)
is no earlier than 2022-05-01, the published context's media-best index
names the exiftool candidate (2022-05-01 10:00:00 local), the
filesystem-best index names the `fs:path` candidate carrying 2022-04-30
with origin `path:filename:YYYYMMDD`, and the overall-best index is that
same `fs:path` candidate: the tokens are prefix-incompatible, so the
earlier raw instant wins. -/
theorem collect_c3 {off : Int} {stat : StatResult} {M C : DT}
    (hm : fromtimestampE stat.st_mtime off = Except.ok M)
    (hc : fromtimestampE stat.st_ctime off = Except.ok C)
    (hbirth : match stat.st_birthtime with
      | none => True
      | some b => ∃ B, fromtimestampE b off = Except.ok B
          ∧ ¬ dateLt B (DT.mk 2022 5 1 0 0 0 0 (some off)))
    (hMd : M.year = 2022 ∧ M.month = 5 ∧ M.day = 2)
    (hCd : ¬ dateLt C (DT.mk 2022 5 1 0 0 0 0 (some off))) :
    ∃ ctx, collect_file_datetime_context off p3 stat exifPayload3 Json.null false
        = Except.ok ctx
      ∧ ctx.media_most_likely = pyIndex ctx.candidates (exifC3 off)
      ∧ ctx.fs_most_likely = pyIndex ctx.candidates (fsPathC3 off)
      ∧ ctx.most_likely = pyIndex ctx.candidates (fsPathC3 off)
      ∧ ctx.most_likely = ctx.fs_most_likely
      ∧ exifC3 off ∈ ctx.candidates
      ∧ fsPathC3 off ∈ ctx.candidates := by
  have hMd' : dateLt (DT.mk 2022 4 30 0 0 0 0 (some off)) M := by
    obtain ⟨e1, e2, e3⟩ := hMd
    show 2022 < M.year ∨ (2022 = M.year
      ∧ (4 < M.month ∨ (4 = M.month ∧ 30 < M.day)))
    omega
  have hCd' := @dateLt_0430_of_not_lt_0501 C (some off) (some off) hCd
  have hbirth' : match stat.st_birthtime with
      | none => True
      | some b => ∃ B, fromtimestampE b off = Except.ok B
          ∧ dateLt (DT.mk 2022 4 30 0 0 0 0 (some off)) B := by
    rcases hbt : stat.st_birthtime with _ | b
    · trivial
    · rw [hbt] at hbirth
      obtain ⟨B, h1, h2⟩ := hbirth
      exact ⟨B, h1, dateLt_0430_of_not_lt_0501 h2⟩
  obtain ⟨fsL, hfsL⟩ := fs_candidates_c3 hm hc hbirth' hMd' hCd'
  have hvexif : (exifC3 off).timestamp.Valid :=
    DT.valid_of_valid_none (show (DT.mk 2022 5 1 10 0 0 0 none).Valid by decide)
  have hpair : choose_most_likely [fsPathC3 off, exifC3 off]
      = Except.ok (fsPathC3 off) := by
    refine choose_dominant (by simp) ?_ ?_ ?_
    · intro x hx
      simp only [List.mem_cons, List.not_mem_nil, or_false] at hx
      rcases hx with rfl | rfl
      · exact DT.valid_of_valid_none (show (DT.mk 2022 4 30 0 0 0 0 none).Valid by decide)
      · exact hvexif
    · intro x hx y hy
      have hxo : x.timestamp.off = some off := by
        simp only [List.mem_cons, List.not_mem_nil, or_false] at hx
        rcases hx with rfl | rfl <;> rfl
      have hyo : y.timestamp.off = some off := by
        simp only [List.mem_cons, List.not_mem_nil, or_false] at hy
        rcases hy with rfl | rfl <;> rfl
      rw [hxo, hyo]
    · intro x hx hxp
      simp only [List.mem_cons, List.not_mem_nil, or_false] at hx
      rcases hx with rfl | rfl
      · exact absurd rfl hxp
      · exact fsPath_beats hvexif rfl rfl
          (Or.inr ⟨rfl, Or.inl (show (4 : Nat) < 5 from by norm_num)⟩)
  refine ⟨FileDatetimeContext.mk ([exifC3 off] ++ fsL)
    (pyIndex ([exifC3 off] ++ fsL) (fsPathC3 off))
    (pyIndex ([exifC3 off] ++ fsL) (exifC3 off))
    (pyIndex ([exifC3 off] ++ fsL) (fsPathC3 off)), ?_, rfl, rfl, rfl, rfl,
    ?_, ?_⟩
  · unfold collect_file_datetime_context
    rw [show media_candidates_of off (strLower p3.suffix) exifPayload3 Json.null
      false = [exifC3 off] from rfl]
    refine except_bind_ok.mpr ⟨some (exifC3 off), rfl, ?_⟩
    refine except_bind_ok.mpr ⟨(fsL, fsPathC3 off), hfsL, ?_⟩
    refine except_bind_ok.mpr ⟨fsPathC3 off, ?_, rfl⟩
    exact hpair
  · exact List.mem_append_left _ (by simp)
  · exact List.mem_append_right _ (fs_candidates_inv hfsL).1

def s3w : StatResult := StatResult.mk 1651449600000000 1651449600000000 none

/-- Witness for C3 at a concrete filesystem state (mtime and ctime both
2022-05-02T00:00:00 UTC, no birthtime, UTC local zone). -/
theorem collect_c3_witness :
    ∃ ctx, collect_file_datetime_context 0 p3 s3w exifPayload3 Json.null false
        = Except.ok ctx
      ∧ ctx.media_most_likely = pyIndex ctx.candidates (exifC3 0)
      ∧ ctx.fs_most_likely = pyIndex ctx.candidates (fsPathC3 0)
      ∧ ctx.most_likely = pyIndex ctx.candidates (fsPathC3 0)
      ∧ ctx.most_likely = ctx.fs_most_likely
      ∧ exifC3 0 ∈ ctx.candidates
      ∧ fsPathC3 0 ∈ ctx.candidates :=
  @collect_c3 0 s3w (DT.mk 2022 5 2 0 0 0 0 (some 0))
    (DT.mk 2022 5 2 0 0 0 0 (some 0)) (by rfl) (by rfl) True.intro
    (by decide)
    (by show ¬((2022 : Nat) < 2022 ∨ (2022 = 2022 ∧ (5 < 5 ∨ (5 = 5 ∧ 2 < 1))))
        decide)

end Photo
